import Mathlib

/-!
Verification development for the TAKNET-PS beast-proxy session engine.

The Python sources under beast-proxy/ (proxy.py, vpn_resolver.py, db.py) are
shallowly embedded below: byte buffers become `List Nat`, the SQLite store
becomes a list of feeder records, network/API side effects become explicit
environment values, and exceptions absorbed by `try/except` blocks become
explicit outcome constructors.  Machine integers in the source are Python
arbitrary-precision integers, so `Nat` is used directly.
-/

namespace BeastProxy

/-! ## Frame counter (proxy.py lines 35-61) -/

def BEAST_ESCAPE : Nat := 0x1a

def BEAST_TYPES : List Nat := [0x31, 0x32, 0x33, 0x34, 0x35]

def BEAST_LONG : List Nat := [0x33, 0x35]

/--
The scanning `while` loop of `count_beast_frames` (proxy.py lines 43-60),
with the loop index `i` explicit.  Python's loop guard `i < length - 1`
(over true integers) is written `i + 1 < length` to avoid truncated `Nat`
subtraction; the two are equivalent over the integers.  The `fuel`
parameter makes the recursion structural; each iteration advances `i` by
at least one, so `fuel = data.length` always suffices (the top-level
wrapper passes exactly that).  The loop is instrumented with the list of
indices it reads (`reads`) and, for each lookahead read of the byte after
an escape byte, the index of the escape byte itself (`lookaheads`); the
source reads `data[i]` each iteration and `data[i + 1]` exactly when
`data[i]` is the escape byte.
-/
def cbfLoop (data : List Nat) : Nat → Nat → Nat → Nat → List Nat → List Nat →
    Nat × Nat × List Nat × List Nat
  | 0, _, msgs, positions, reads, lookaheads => (msgs, positions, reads, lookaheads)
  | fuel + 1, i, msgs, positions, reads, lookaheads =>
    if i + 1 < data.length then
      if data.getD i 0 = BEAST_ESCAPE then
        let next_byte := data.getD (i + 1) 0
        if next_byte = BEAST_ESCAPE then
          cbfLoop data fuel (i + 2) msgs positions (i :: (i + 1) :: reads) (i :: lookaheads)
        else if next_byte ∈ BEAST_TYPES then
          cbfLoop data fuel (i + 2) (msgs + 1)
            (positions + if next_byte ∈ BEAST_LONG then 1 else 0)
            (i :: (i + 1) :: reads) (i :: lookaheads)
        else
          cbfLoop data fuel (i + 1) msgs positions (i :: (i + 1) :: reads) (i :: lookaheads)
      else
        cbfLoop data fuel (i + 1) msgs positions (i :: reads) lookaheads
    else (msgs, positions, reads, lookaheads)

/-- `count_beast_frames` (proxy.py lines 40-61): returns
`(total_messages, position_messages)`. -/
def count_beast_frames (data : List Nat) : Nat × Nat :=
  let r := cbfLoop data data.length 0 0 0 [] []
  (r.1, r.2.1)

/-- Indices read by the scan of `count_beast_frames` over `data`. -/
def cbfReads (data : List Nat) : List Nat :=
  (cbfLoop data data.length 0 0 0 [] []).2.2.1

/-- Escape-byte indices at which the scan performed the lookahead read of
the following byte. -/
def cbfLookaheads (data : List Nat) : List Nat :=
  (cbfLoop data data.length 0 0 0 [] []).2.2.2

/--
Structural restatement of the same scan, recursing on the buffer instead
of an index: used to reason about concatenations of frames.  It is proved
equal to `count_beast_frames` below (`count_beast_frames_eq_countAux`).
-/
def countAux : List Nat → Nat × Nat
  | b0 :: b1 :: rest =>
    if b0 = BEAST_ESCAPE then
      if b1 = BEAST_ESCAPE then countAux rest
      else if b1 ∈ BEAST_TYPES then
        ((countAux rest).1 + 1, (countAux rest).2 + if b1 ∈ BEAST_LONG then 1 else 0)
      else countAux (b1 :: rest)
    else countAux (b1 :: rest)
  | _ => (0, 0)
termination_by l => l.length

/-- Beast payload encoding: every literal escape byte is doubled. -/
def escBytes : List Nat → List Nat
  | [] => []
  | b :: rest => if b = BEAST_ESCAPE then BEAST_ESCAPE :: BEAST_ESCAPE :: escBytes rest
                 else b :: escBytes rest

/-- A well-formed Beast frame: escape byte, type byte, escape-doubled payload. -/
def mkFrame (t : Nat) (payload : List Nat) : List Nat :=
  BEAST_ESCAPE :: t :: escBytes payload

/-! ## Origin classifier (vpn_resolver.py)

IP addresses are embedded as the parsed 32-bit value (`Nat`); the result of
`ipaddress.ip_address(ip_str)` is an `Option Nat` (`none` for a `ValueError`).
An empty string (a falsy Python value, used for a missing token or a missing
peer ip) is `""` for tokens and `none`/absence for peer addresses.  The
outcome of each network call (`requests.get`, the tailscaled socket request)
is an explicit `ApiResult`: `exc` stands for any raised-and-caught exception
(connection errors, JSON parse errors), `resp status body` for a reply.  -/

def _CACHE_TTL : Nat := 60

/-- A CIDR network from `ipaddress.ip_network(..., strict=False)`. -/
structure Cidr where
  base : Nat
  prefixLen : Nat
deriving DecidableEq

/-- `addr in network` for a parsed CIDR: the two addresses agree above the
host bits. -/
def cidrMem (net : Cidr) (a : Nat) : Bool :=
  a / 2 ^ (32 - net.prefixLen) = net.base / 2 ^ (32 - net.prefixLen)

/-- A NetBird peer object from the management API (the fields refresh and
resolve use).  `ip = none` models a missing or empty `"ip"` field. -/
structure NbPeer where
  ip : Option Nat
  ip_addresses : List Nat
  name : String
  hostname : String
deriving DecidableEq

/-- A Tailscale peer object from the local status API. -/
structure TsPeer where
  tailscaleIPs : List Nat
  hostName : String
deriving DecidableEq

/-- Outcome of one external API call; `exc` is any exception the `except`
block absorbs. -/
inductive ApiResult (α : Type) where
  | exc : ApiResult α
  | resp (status : Nat) (body : α) : ApiResult α
deriving DecidableEq

/-- The external world as seen by one refresh attempt. -/
structure Env where
  netbirdApi : ApiResult (List NbPeer)
  tailscaleSockExists : Bool
  tailscaleApi : ApiResult (List TsPeer)
deriving DecidableEq

/-- Module-level configuration (vpn_resolver.py lines 13-24). -/
structure Config where
  NETBIRD_ENABLED : Bool
  NETBIRD_API_TOKEN : String
  NETBIRD_CIDR : Cidr
  TAILSCALE_ENABLED : Bool
  TAILSCALE_CIDR : Cidr
deriving DecidableEq

/-- `_netbird_net` (line 24): parsed only when NetBird is enabled. -/
def _netbird_net (cfg : Config) : Option Cidr :=
  if cfg.NETBIRD_ENABLED then some cfg.NETBIRD_CIDR else none

/-- `_tailscale_net` (line 23). -/
def _tailscale_net (cfg : Config) : Option Cidr :=
  if cfg.TAILSCALE_ENABLED then some cfg.TAILSCALE_CIDR else none

/-- The module-level mutable cache state (lines 30-34).  Timestamps are
`time.monotonic()` values, modelled as `Nat`. -/
structure VpnState where
  netbirdPeers : List (Nat × NbPeer)
  netbirdCacheTs : Nat
  tailscalePeers : List (Nat × TsPeer)
  tailscaleCacheTs : Nat
deriving DecidableEq

/-- Python dict assignment `mapping[k] = v`: the most recent binding wins,
so bindings are prepended and `List.lookup` (first match) reads them. -/
def dictInsert {β : Type} (m : List (Nat × β)) (k : Nat) (v : β) : List (Nat × β) :=
  (k, v) :: m

/-- The mapping built by `_refresh_netbird` (lines 53-60): index each peer
by its `ip` and by every distinct extra address. -/
def buildNetbirdMapping (peers : List NbPeer) : List (Nat × NbPeer) :=
  peers.foldl (fun mapping p =>
    let mapping1 := match p.ip with
      | some ip => dictInsert mapping ip p
      | none => mapping
    p.ip_addresses.foldl (fun m extra =>
      if p.ip ≠ some extra then dictInsert m extra p else m) mapping1) []

/-- The mapping built by `_refresh_tailscale` (lines 94-97): index each peer
by every one of its Tailscale addresses. -/
def buildTailscaleMapping (peers : List TsPeer) : List (Nat × TsPeer) :=
  peers.foldl (fun mapping peer =>
    peer.tailscaleIPs.foldl (fun m addr => dictInsert m addr peer) mapping) []

/-- `_refresh_netbird` (lines 39-64): a missing token, an exception, or a
non-200 status leaves the state untouched; a 200 reply replaces the whole
mapping and stamps the cache with the current monotonic time. -/
def _refresh_netbird (cfg : Config) (env : Env) (now : Nat) (st : VpnState) : VpnState :=
  if cfg.NETBIRD_API_TOKEN = "" then st
  else match env.netbirdApi with
    | .exc => st
    | .resp status peers =>
      if status = 200 then
        { st with netbirdPeers := buildNetbirdMapping peers, netbirdCacheTs := now }
      else st

/-- `_refresh_tailscale` (lines 78-101): a missing socket, an exception, or
a non-200 status leaves the state untouched. -/
def _refresh_tailscale (env : Env) (now : Nat) (st : VpnState) : VpnState :=
  if env.tailscaleSockExists = false then st
  else match env.tailscaleApi with
    | .exc => st
    | .resp status peers =>
      if status = 200 then
        { st with tailscalePeers := buildTailscaleMapping peers, tailscaleCacheTs := now }
      else st

/-- Result of one `_get_*_peer` call, instrumented with whether the call
invoked the refresh routine. -/
structure NbGet where
  st : VpnState
  refreshed : Bool
  peer : Option NbPeer
deriving DecidableEq

structure TsGet where
  st : VpnState
  refreshed : Bool
  peer : Option TsPeer
deriving DecidableEq

/-- `_get_netbird_peer` (lines 67-73). -/
def _get_netbird_peer (cfg : Config) (env : Env) (now : Nat) (st : VpnState)
    (a : Nat) : NbGet :=
  if cfg.NETBIRD_ENABLED = false ∨ cfg.NETBIRD_API_TOKEN = "" then ⟨st, false, none⟩
  else if now - st.netbirdCacheTs > _CACHE_TTL then
    let st1 := _refresh_netbird cfg env now st
    ⟨st1, true, st1.netbirdPeers.lookup a⟩
  else ⟨st, false, st.netbirdPeers.lookup a⟩

/-- `_get_tailscale_peer` (lines 104-110). -/
def _get_tailscale_peer (cfg : Config) (env : Env) (now : Nat) (st : VpnState)
    (a : Nat) : TsGet :=
  if cfg.TAILSCALE_ENABLED = false then ⟨st, false, none⟩
  else if now - st.tailscaleCacheTs > _CACHE_TTL then
    let st1 := _refresh_tailscale env now st
    ⟨st1, true, st1.tailscalePeers.lookup a⟩
  else ⟨st, false, st.tailscalePeers.lookup a⟩

/-- `in_netbird_range` (line 128). -/
def in_netbird_range (cfg : Config) (a : Nat) : Bool :=
  cfg.NETBIRD_ENABLED && (match _netbird_net cfg with
    | some net => cidrMem net a
    | none => false)

/-- `in_tailscale_range` (line 129). -/
def in_tailscale_range (cfg : Config) (a : Nat) : Bool :=
  cfg.TAILSCALE_ENABLED && (match _tailscale_net cfg with
    | some net => cidrMem net a
    | none => false)

/-- Result of `classify_connection`, instrumented with the lookup/refresh
calls it made on each cache. -/
structure ClassifyResult where
  cls : String
  st : VpnState
  nbLookup : Bool
  nbRefreshed : Bool
  tsLookup : Bool
  tsRefreshed : Bool
deriving DecidableEq

/-- The CIDR-only fallback of `classify_connection` (lines 138-144). -/
def classifyFallback (cfg : Config) (a : Nat) (st : VpnState)
    (nbL nbR tsL tsR : Bool) : ClassifyResult :=
  if in_netbird_range cfg a then ⟨"netbird", st, nbL, nbR, tsL, tsR⟩
  else if in_tailscale_range cfg a then ⟨"tailscale", st, nbL, nbR, tsL, tsR⟩
  else ⟨"public", st, nbL, nbR, tsL, tsR⟩

/-- The Tailscale explicit-match step of `classify_connection` (line 135)
followed by the fallback. -/
def classifyTailscaleStep (cfg : Config) (env : Env) (now : Nat) (st : VpnState)
    (a : Nat) (nbL nbR : Bool) : ClassifyResult :=
  if in_tailscale_range cfg a then
    let g := _get_tailscale_peer cfg env now st a
    match g.peer with
    | some _ => ⟨"tailscale", g.st, nbL, nbR, true, g.refreshed⟩
    | none => classifyFallback cfg a g.st nbL nbR true g.refreshed
  else classifyFallback cfg a st nbL nbR false false

/-- `classify_connection` (lines 115-144).  The input is the parse result of
the address string: `none` is a `ValueError` from `ipaddress.ip_address`.
A peer dict found in a cache is never empty (empty peers are not inserted
by the refresh), so Python dict truthiness is `Option.isSome`. -/
def classify_connection (cfg : Config) (env : Env) (now : Nat) (st : VpnState)
    (ip : Option Nat) : ClassifyResult :=
  match ip with
  | none => ⟨"public", st, false, false, false, false⟩
  | some a =>
    if in_netbird_range cfg a then
      let g := _get_netbird_peer cfg env now st a
      match g.peer with
      | some _ => ⟨"netbird", g.st, true, g.refreshed, false, false⟩
      | none => classifyTailscaleStep cfg env now g.st a true g.refreshed
    else classifyTailscaleStep cfg env now st a false false

/-- Modelled from the spec: lazy refresh of the overlay-A cache, "a
classification or resolve call triggers a synchronous refresh only if the
cache age exceeds a fixed TTL". -/
def lazyRefreshNbSpec (cfg : Config) (env : Env) (now : Nat) (st : VpnState) : VpnState :=
  if now - st.netbirdCacheTs > _CACHE_TTL then _refresh_netbird cfg env now st else st

/-- Modelled from the spec: lazy refresh of the overlay-B cache. -/
def lazyRefreshTsSpec (env : Env) (now : Nat) (st : VpnState) : VpnState :=
  if now - st.tailscaleCacheTs > _CACHE_TTL then _refresh_tailscale env now st else st

/-- Modelled from the spec: the five-step precedence of §4.2, written as the
spec words it — explicit peer record in the possibly-just-refreshed
overlay-A cache, then overlay-B, then range-only fallbacks, then public. -/
def classifySpec (cfg : Config) (env : Env) (now : Nat) (st : VpnState)
    (ip : Option Nat) : String :=
  match ip with
  | none => "public"
  | some a =>
    let inA := in_netbird_range cfg a
    let inB := in_tailscale_range cfg a
    let stA := lazyRefreshNbSpec cfg env now st
    if inA && (stA.netbirdPeers.lookup a).isSome then "netbird"
    else
      let stB := lazyRefreshTsSpec env now stA
      if inB && (stB.tailscalePeers.lookup a).isSome then "tailscale"
      else if inA then "netbird"
      else if inB then "tailscale"
      else "public"

/-- Result of `resolve_hostname`, instrumented like the get calls. -/
structure ResolveResult where
  st : VpnState
  refreshed : Bool
  hostname : Option String
deriving DecidableEq

/-- `resolve_hostname` (lines 147-157).  `peer.get("name") or
peer.get("hostname", "")` is: the name when non-empty, else the hostname. -/
def resolve_hostname (cfg : Config) (env : Env) (now : Nat) (st : VpnState)
    (a : Nat) (conn_type : String) : ResolveResult :=
  if conn_type = "netbird" then
    let g := _get_netbird_peer cfg env now st a
    match g.peer with
    | some p => ⟨g.st, g.refreshed, some (if p.name ≠ "" then p.name else p.hostname)⟩
    | none => ⟨g.st, g.refreshed, none⟩
  else if conn_type = "tailscale" then
    let g := _get_tailscale_peer cfg env now st a
    match g.peer with
    | some p => ⟨g.st, g.refreshed, some p.hostName⟩
    | none => ⟨g.st, g.refreshed, none⟩
  else ⟨st, false, none⟩

/-- `refresh_caches` (lines 160-164): zero both timestamps so the next
lookup refreshes. -/
def refresh_caches (st : VpnState) : VpnState :=
  { st with netbirdCacheTs := 0, tailscaleCacheTs := 0 }

/-! ## Session state and teardown (proxy.py `handle_client`, `forward_stream`)

The `conn_info` dict (proxy.py lines 124-138) becomes a fixed-shape record;
the timestamp and display fields it also carries play no part in the claims
and are omitted.  The durable store calls become an event trace
(`DbEvent`) plus, for the reconciler, a feeder-table transformer. -/

/-- The per-session counter state shared (by reference) with the
live-session registry. -/
structure ConnInfo where
  feeder_id : Nat
  connection_id : Nat
  ip : Nat
  bytes : Nat
  bytes_flushed : Nat
  messages : Nat
  messages_flushed : Nat
  positions : Nat
  positions_flushed : Nat
deriving DecidableEq

/-- The freshly built `conn_info` of proxy.py lines 124-138: all counters
and watermarks start at zero. -/
def initConnInfo (fid cid ip : Nat) : ConnInfo :=
  ⟨fid, cid, ip, 0, 0, 0, 0, 0, 0⟩

/-- One inbound chunk step of `forward_stream` (proxy.py lines 73-79). -/
def processChunk (ci : ConnInfo) (chunk : List Nat) : ConnInfo :=
  let counts := count_beast_frames chunk
  { ci with bytes := ci.bytes + chunk.length,
            messages := ci.messages + counts.1,
            positions := ci.positions + counts.2 }

/-- The whole inbound copy loop over the sequence of chunks the client
sent before the connection ended. -/
def runInbound (ci : ConnInfo) (chunks : List (List Nat)) : ConnInfo :=
  chunks.foldl processChunk ci

/-- Calls the session engine makes on its collaborators, in order.
`aircraft_count` and `refresh_caches` are not store writes but are recorded
so the trace shows which tick steps ran. -/
inductive DbEvent where
  | update_feeder_stats (fid bytes msgs positions : Nat)
  | touch_feeder (fid : Nat)
  | update_feeder_mlat (fid : Nat) (flag : Bool)
  | log_disconnection (fid cid bytes : Nat)
  | aircraft_count
  | mark_inactive_feeders (ids : List Nat)
  | refresh_caches
deriving DecidableEq

/-- The `finally` block of `handle_client` (proxy.py lines 158-166): flush
the unflushed delta when the byte or message part is non-zero, then log the
disconnection with the final byte total. -/
def teardown (ci : ConnInfo) : List DbEvent :=
  let unflushed_bytes := ci.bytes - ci.bytes_flushed
  let unflushed_msgs := ci.messages - ci.messages_flushed
  let unflushed_pos := ci.positions - ci.positions_flushed
  (if unflushed_bytes > 0 ∨ unflushed_msgs > 0 then
    [DbEvent.update_feeder_stats ci.feeder_id unflushed_bytes unflushed_msgs unflushed_pos]
  else [])
  ++ [DbEvent.log_disconnection ci.feeder_id ci.connection_id ci.bytes]

/-- How the relay phase of `handle_client` ended.  EOF, reset, broken pipe
and cancellation all leave the `gather` normally (each `forward_stream`
absorbs them, lines 80-83) or jump to the `except` arms (lines 154-157);
`upstreamFail` is `open_connection` failing, before any chunk flows. -/
inductive SessionEnd where
  | eof | reset | brokenPipe | cancelled | upstreamFail
deriving DecidableEq

/-- The session's counter state when the `finally` block runs: untouched
when the upstream connection never opened, otherwise the result of the
inbound copy loop. -/
def relayResult (ci : ConnInfo) (chunks : List (List Nat)) (ending : SessionEnd) : ConnInfo :=
  match ending with
  | .upstreamFail => ci
  | _ => runInbound ci chunks

/-- `active_connections.pop(id(writer), None)` on an assoc-list registry. -/
def removeKey (reg : List (Nat × ConnInfo)) (wid : Nat) : List (Nat × ConnInfo) :=
  reg.filter (fun e => e.1 ≠ wid)

/-- `handle_client` from registry insertion to teardown (proxy.py lines
139-176), for a session whose relay phase ends as `ending`.  All
termination paths funnel through the single `finally` block, which the
model reflects by emitting exactly one `teardown` trace.  The registry
entry is the same mutable dict as the local `conn_info`, so it holds the
final counters when popped. -/
def handle_client_session (wid fid cid ip : Nat) (chunks : List (List Nat))
    (ending : SessionEnd) (reg : List (Nat × ConnInfo)) :
    List DbEvent × List (Nat × ConnInfo) :=
  let ci0 := initConnInfo fid cid ip
  let reg1 := (wid, ci0) :: reg
  let ci := relayResult ci0 chunks ending
  let reg2 := reg1.map (fun e => if e.1 = wid then (wid, ci) else e)
  (teardown ci, removeKey reg2 wid)

/-! ## Durable feeder table and the reconciler tick (db.py, proxy.py
`stats_flusher`) -/

/-- The columns of a `feeders` row that the reconciler touches. -/
structure FeederRec where
  fid : Nat
  status : String
  bytes_received : Nat
  messages_received : Nat
  positions_received : Nat
  mlat_enabled : Bool
deriving DecidableEq

abbrev Store := List FeederRec

/-- `db.update_feeder_stats` (db.py lines 129-144): add the deltas and mark
the feeder active. -/
def update_feeder_stats (s : Store) (fid b m p : Nat) : Store :=
  s.map (fun r => if r.fid = fid then
    { r with bytes_received := r.bytes_received + b,
             messages_received := r.messages_received + m,
             positions_received := r.positions_received + p,
             status := "active" } else r)

/-- `db.touch_feeder` (db.py lines 147-155). -/
def touch_feeder (s : Store) (fid : Nat) : Store :=
  s.map (fun r => if r.fid = fid then { r with status := "active" } else r)

/-- `db.update_feeder_mlat` (db.py lines 158-178) as the reconciler calls
it (no coordinates, so the plain-flag branch). -/
def update_feeder_mlat (s : Store) (fid : Nat) (flag : Bool) : Store :=
  s.map (fun r => if r.fid = fid then { r with mlat_enabled := flag } else r)

/-- `db.mark_inactive_feeders` (db.py lines 181-197): only rows whose
status is `'active'` and whose id is outside the live set turn `'stale'`;
the two SQL branches (empty and non-empty id set) are kept. -/
def mark_inactive_feeders (s : Store) (activeIds : List Nat) : Store :=
  if activeIds ≠ [] then
    s.map (fun r => if r.status = "active" ∧ r.fid ∉ activeIds then
      { r with status := "stale" } else r)
  else
    s.map (fun r => if r.status = "active" then { r with status := "stale" } else r)

/-- Outcome of one `stats_flusher` tick.  `ok = false` means an uncaught
exception left the tick body — in the source that exception also leaves
the `while True` loop and terminates the `stats_flusher` task. -/
structure TickResult where
  ok : Bool
  store : Store
  events : List DbEvent
  reg : List (Nat × ConnInfo)
deriving DecidableEq

/-- The per-session loop of `stats_flusher` (proxy.py lines 229-247), with
store-write failure injection: a feeder id in `failsOn` makes its first
store write of the tick raise, which (there being no `try` in
`stats_flusher`) aborts the loop with the remaining sessions unprocessed. -/
def tickLoop (failsOn mlat_ips : List Nat) :
    List (Nat × ConnInfo) → Store → List DbEvent → TickResult
  | [], store, evs => ⟨true, store, evs, []⟩
  | (wid, ci) :: rest, store, evs =>
    let fid := ci.feeder_id
    let unflushed_bytes := ci.bytes - ci.bytes_flushed
    let unflushed_msgs := ci.messages - ci.messages_flushed
    let unflushed_pos := ci.positions - ci.positions_flushed
    if fid ∈ failsOn then ⟨false, store, evs, (wid, ci) :: rest⟩
    else if unflushed_bytes > 0 ∨ unflushed_msgs > 0 then
      let store1 := update_feeder_stats store fid unflushed_bytes unflushed_msgs unflushed_pos
      let ci1 := { ci with bytes_flushed := ci.bytes,
                           messages_flushed := ci.messages,
                           positions_flushed := ci.positions }
      let store2 := update_feeder_mlat store1 fid (decide (ci.ip ∈ mlat_ips))
      let r := tickLoop failsOn mlat_ips rest store2
        (evs ++ [DbEvent.update_feeder_stats fid unflushed_bytes unflushed_msgs unflushed_pos,
                 DbEvent.update_feeder_mlat fid (decide (ci.ip ∈ mlat_ips))])
      { r with reg := (wid, ci1) :: r.reg }
    else
      let store1 := touch_feeder store fid
      let store2 := update_feeder_mlat store1 fid (decide (ci.ip ∈ mlat_ips))
      let r := tickLoop failsOn mlat_ips rest store2
        (evs ++ [DbEvent.touch_feeder fid,
                 DbEvent.update_feeder_mlat fid (decide (ci.ip ∈ mlat_ips))])
      { r with reg := (wid, ci) :: r.reg }

/-- One `stats_flusher` tick (proxy.py lines 222-269): the per-session
loop, then the aircraft count, the stale marking over the feeder ids of
the current registry, the status line, and the cache refresh.  If the
per-session loop raised, none of the later steps run. -/
def stats_flusher_tick (failsOn mlat_ips : List Nat)
    (reg : List (Nat × ConnInfo)) (store : Store) : TickResult :=
  let r := tickLoop failsOn mlat_ips reg store []
  if r.ok then
    let activeIds := r.reg.map (fun e => e.2.feeder_id)
    { ok := true,
      store := mark_inactive_feeders r.store activeIds,
      events := r.events ++ [DbEvent.aircraft_count,
                             DbEvent.mark_inactive_feeders activeIds,
                             DbEvent.refresh_caches],
      reg := r.reg }
  else r

/-- Watermark soundness for one session: each flushed watermark is at most
its running total. -/
def sessionInv (ci : ConnInfo) : Prop :=
  ci.bytes_flushed ≤ ci.bytes ∧ ci.messages_flushed ≤ ci.messages ∧
    ci.positions_flushed ≤ ci.positions

/-- The position delta never exceeds the message delta (positions are
counted only alongside messages, and the watermarks advance together). -/
def deltaInv (ci : ConnInfo) : Prop :=
  ci.positions - ci.positions_flushed ≤ ci.messages - ci.messages_flushed

instance (ci : ConnInfo) : Decidable (sessionInv ci) := by
  unfold sessionInv; infer_instance

instance (ci : ConnInfo) : Decidable (deltaInv ci) := by
  unfold deltaInv; infer_instance

/-! ## Lemmas about the frame counter -/

theorem drop_getD_cons : ∀ (l : List Nat) (i : Nat), i < l.length →
    l.drop i = l.getD i 0 :: l.drop (i + 1) := by
  intro l
  induction l with
  | nil => intro i h; simp at h
  | cons a t ih =>
    intro i h
    cases i with
    | zero => simp
    | succ j =>
      simp only [List.drop_succ_cons, List.getD_cons_succ]
      exact ih j (by simpa using h)

theorem countAux_short (l : List Nat) (h : l.length ≤ 1) : countAux l = (0, 0) := by
  match l with
  | [] => simp [countAux]
  | [b] => simp [countAux]
  | a :: b :: t => simp at h

theorem countAux_cons_ne (b : Nat) (l : List Nat) (hb : b ≠ BEAST_ESCAPE) :
    countAux (b :: l) = countAux l := by
  match l with
  | [] => simp [countAux]
  | c :: t => simp [countAux, hb]

theorem countAux_esc_esc (l : List Nat) :
    countAux (BEAST_ESCAPE :: BEAST_ESCAPE :: l) = countAux l := by
  simp [countAux]

theorem countAux_esc_type (t : Nat) (l : List Nat) (ht : t ∈ BEAST_TYPES) :
    countAux (BEAST_ESCAPE :: t :: l) =
      ((countAux l).1 + 1, (countAux l).2 + if t ∈ BEAST_LONG then 1 else 0) := by
  have hne : t ≠ BEAST_ESCAPE := by
    intro h; subst h; revert ht; decide
  simp [countAux, hne, ht]

theorem countAux_esc_other (t : Nat) (l : List Nat) (hne : t ≠ BEAST_ESCAPE)
    (ht : t ∉ BEAST_TYPES) :
    countAux (BEAST_ESCAPE :: t :: l) = countAux (t :: l) := by
  have h2 := countAux_cons_ne t l hne
  simp [countAux, hne, ht, h2]

theorem cbfLoop_counts : ∀ (fuel : Nat) (data : List Nat) (i m p : Nat)
    (rds las : List Nat), data.length ≤ fuel + i + 1 →
    (cbfLoop data fuel i m p rds las).1 = m + (countAux (data.drop i)).1 ∧
    (cbfLoop data fuel i m p rds las).2.1 = p + (countAux (data.drop i)).2 := by
  intro fuel
  induction fuel with
  | zero =>
    intro data i m p rds las hlen
    have hdrop : countAux (data.drop i) = (0, 0) :=
      countAux_short _ (by simp; omega)
    simp [cbfLoop, hdrop]
  | succ fuel ih =>
    intro data i m p rds las hlen
    by_cases h : i + 1 < data.length
    · have hi : i < data.length := by omega
      have hd1 : data.drop i = data.getD i 0 :: data.drop (i + 1) := drop_getD_cons data i hi
      have hd2 : data.drop (i + 1) = data.getD (i + 1) 0 :: data.drop (i + 2) :=
        drop_getD_cons data (i + 1) h
      by_cases he : data.getD i 0 = BEAST_ESCAPE
      · by_cases hee : data.getD (i + 1) 0 = BEAST_ESCAPE
        · have IH := ih data (i + 2) m p (i :: (i + 1) :: rds) (i :: las) (by omega)
          rw [cbfLoop]
          simp only [h, ite_true, he, hee, eq_self_iff_true, if_true]
          rw [hd1, hd2, he, hee, countAux_esc_esc]
          simpa using IH
        · by_cases hty : data.getD (i + 1) 0 ∈ BEAST_TYPES
          · have IH := ih data (i + 2) (m + 1)
              (p + if data.getD (i + 1) 0 ∈ BEAST_LONG then 1 else 0)
              (i :: (i + 1) :: rds) (i :: las) (by omega)
            rw [cbfLoop]
            simp only [h, ite_true, he, hee, hty, eq_self_iff_true, if_true, if_false, ite_false]
            rw [hd1, hd2, he, countAux_esc_type _ _ hty]
            refine ⟨?_, ?_⟩
            · rw [IH.1]; omega
            · rw [IH.2]; omega
          · have IH := ih data (i + 1) m p (i :: (i + 1) :: rds) (i :: las) (by omega)
            rw [cbfLoop]
            simp only [h, ite_true, he, hee, hty, eq_self_iff_true, if_true, if_false, ite_false]
            rw [hd1, he, hd2, countAux_esc_other _ _ hee hty, ← hd2]
            simpa using IH
      · have IH := ih data (i + 1) m p (i :: rds) las (by omega)
        rw [cbfLoop]
        simp only [h, ite_true, he, eq_self_iff_true, if_true, if_false, ite_false]
        rw [hd1, countAux_cons_ne _ _ he]
        simpa using IH
    · have hdrop : countAux (data.drop i) = (0, 0) :=
        countAux_short _ (by simp; omega)
      rw [cbfLoop]
      simp [h, hdrop]

theorem count_beast_frames_eq_countAux (data : List Nat) :
    count_beast_frames data = countAux data := by
  have := cbfLoop_counts data.length data 0 0 0 [] [] (by omega)
  simp only [count_beast_frames]
  rw [Prod.ext_iff]
  simpa using this

theorem escBytes_append (p : List Nat) (l : List Nat) :
    countAux (escBytes p ++ l) = countAux l := by
  induction p with
  | nil => simp [escBytes]
  | cons b rest ih =>
    by_cases hb : b = BEAST_ESCAPE
    · subst hb
      simp only [escBytes, eq_self_iff_true, ite_true, List.cons_append]
      rw [countAux_esc_esc, ih]
    · simp only [escBytes, if_neg hb, List.cons_append]
      rw [countAux_cons_ne _ _ hb, ih]

theorem countAux_mkFrame (t : Nat) (payload : List Nat) (l : List Nat)
    (ht : t ∈ BEAST_TYPES) :
    countAux (mkFrame t payload ++ l) =
      ((countAux l).1 + 1, (countAux l).2 + if t ∈ BEAST_LONG then 1 else 0) := by
  simp only [mkFrame, List.cons_append]
  rw [countAux_esc_type _ _ ht, escBytes_append]

theorem countAux_frames (fs : List (Nat × List Nat))
    (hty : ∀ f ∈ fs, f.1 ∈ BEAST_TYPES) :
    countAux ((fs.map (fun f => mkFrame f.1 f.2)).join) =
      (fs.length, fs.countP (fun f => decide (f.1 ∈ BEAST_LONG))) := by
  induction fs with
  | nil => simp [countAux]
  | cons hd tl ih =>
    have hhd : hd.1 ∈ BEAST_TYPES := hty hd (by simp)
    have htl : ∀ f ∈ tl, f.1 ∈ BEAST_TYPES := fun f hf => hty f (by simp [hf])
    simp only [List.map_cons, List.join_cons]
    rw [countAux_mkFrame _ _ _ hhd, ih htl]
    simp only [List.length_cons, List.countP_cons]
    by_cases hl : hd.1 ∈ BEAST_LONG <;> simp [hl]

theorem cbfLoop_reads_bound : ∀ (fuel : Nat) (data : List Nat) (i m p : Nat)
    (rds las : List Nat),
    (∀ j ∈ rds, j < data.length) → (∀ k ∈ las, k + 2 ≤ data.length) →
    (∀ j ∈ (cbfLoop data fuel i m p rds las).2.2.1, j < data.length) ∧
    (∀ k ∈ (cbfLoop data fuel i m p rds las).2.2.2, k + 2 ≤ data.length) := by
  intro fuel
  induction fuel with
  | zero =>
    intro data i m p rds las hr hl
    simpa [cbfLoop] using ⟨hr, hl⟩
  | succ fuel ih =>
    intro data i m p rds las hr hl
    by_cases h : i + 1 < data.length
    · have hr2 : ∀ j ∈ i :: (i + 1) :: rds, j < data.length := by
        intro j hj
        rcases hj with _ | ⟨_, hj⟩
        · omega
        · rcases hj with _ | ⟨_, hj⟩
          · omega
          · exact hr j hj
      have hr1 : ∀ j ∈ i :: rds, j < data.length := by
        intro j hj
        rcases hj with _ | ⟨_, hj⟩
        · omega
        · exact hr j hj
      have hl2 : ∀ k ∈ i :: las, k + 2 ≤ data.length := by
        intro k hk
        rcases hk with _ | ⟨_, hk⟩
        · omega
        · exact hl k hk
      by_cases he : data.getD i 0 = BEAST_ESCAPE
      · by_cases hee : data.getD (i + 1) 0 = BEAST_ESCAPE
        · have IH := ih data (i + 2) m p (i :: (i + 1) :: rds) (i :: las) hr2 hl2
          rw [cbfLoop]
          simp only [h, ite_true, he, hee, eq_self_iff_true, if_true]
          exact IH
        · by_cases hty : data.getD (i + 1) 0 ∈ BEAST_TYPES
          · have IH := ih data (i + 2) (m + 1)
              (p + if data.getD (i + 1) 0 ∈ BEAST_LONG then 1 else 0)
              (i :: (i + 1) :: rds) (i :: las) hr2 hl2
            rw [cbfLoop]
            simp only [h, ite_true, he, hee, hty, eq_self_iff_true, if_true, if_false, ite_false]
            exact IH
          · have IH := ih data (i + 1) m p (i :: (i + 1) :: rds) (i :: las) hr2 hl2
            rw [cbfLoop]
            simp only [h, ite_true, he, hee, hty, eq_self_iff_true, if_true, if_false, ite_false]
            exact IH
      · have IH := ih data (i + 1) m p (i :: rds) las hr1 hl
        rw [cbfLoop]
        simp only [h, ite_true, he, eq_self_iff_true, if_true, if_false, ite_false]
        exact IH
    · rw [cbfLoop]
      simp only [h, ite_false, if_false]
      exact ⟨hr, hl⟩

/-- The position count never exceeds the message count. -/
theorem cbfLoop_pos_le : ∀ (fuel : Nat) (data : List Nat) (i m p : Nat)
    (rds las : List Nat), p ≤ m →
    (cbfLoop data fuel i m p rds las).2.1 ≤ (cbfLoop data fuel i m p rds las).1 := by
  intro fuel
  induction fuel with
  | zero =>
    intro data i m p rds las hpm
    simpa [cbfLoop] using hpm
  | succ fuel ih =>
    intro data i m p rds las hpm
    by_cases h : i + 1 < data.length
    · by_cases he : data.getD i 0 = BEAST_ESCAPE
      · by_cases hee : data.getD (i + 1) 0 = BEAST_ESCAPE
        · have IH := ih data (i + 2) m p (i :: (i + 1) :: rds) (i :: las) hpm
          rw [cbfLoop]
          simp only [h, ite_true, he, hee, eq_self_iff_true, if_true]
          exact IH
        · by_cases hty : data.getD (i + 1) 0 ∈ BEAST_TYPES
          · have IH := ih data (i + 2) (m + 1)
              (p + if data.getD (i + 1) 0 ∈ BEAST_LONG then 1 else 0)
              (i :: (i + 1) :: rds) (i :: las)
              (by split <;> omega)
            rw [cbfLoop]
            simp only [h, ite_true, he, hee, hty, eq_self_iff_true, if_true, if_false, ite_false]
            exact IH
          · have IH := ih data (i + 1) m p (i :: (i + 1) :: rds) (i :: las) hpm
            rw [cbfLoop]
            simp only [h, ite_true, he, hee, hty, eq_self_iff_true, if_true, if_false, ite_false]
            exact IH
      · have IH := ih data (i + 1) m p (i :: rds) las hpm
        rw [cbfLoop]
        simp only [h, ite_true, he, eq_self_iff_true, if_true, if_false, ite_false]
        exact IH
    · rw [cbfLoop]
      simp only [h, ite_false, if_false]
      exact hpm

theorem count_pos_le_msgs (data : List Nat) :
    (count_beast_frames data).2 ≤ (count_beast_frames data).1 :=
  cbfLoop_pos_le data.length data 0 0 0 [] [] (Nat.le_refl 0)

/-! ## Claim theorems for the frame counter -/

/-- C2: a buffer that is the concatenation of N well-formed Beast frames
(escape byte, recognized type byte, escape-doubled payload) counts as
(N, 0) when every frame's type is a short type (in `BEAST_TYPES` but not
`BEAST_LONG`) and as (N, N) when every frame's type is a long type (in
`BEAST_LONG`); escaped literal pairs inside payloads are consumed without
being counted as frames. -/
theorem count_beast_frames_wellformed (frames : List (Nat × List Nat)) :
    ((∀ f ∈ frames, f.1 ∈ BEAST_TYPES ∧ f.1 ∉ BEAST_LONG) →
      count_beast_frames ((frames.map (fun f => mkFrame f.1 f.2)).join) =
        (frames.length, 0)) ∧
    ((∀ f ∈ frames, f.1 ∈ BEAST_LONG) →
      count_beast_frames ((frames.map (fun f => mkFrame f.1 f.2)).join) =
        (frames.length, frames.length)) := by
  constructor
  · intro hshort
    rw [count_beast_frames_eq_countAux,
      countAux_frames frames (fun f hf => (hshort f hf).1)]
    have : frames.countP (fun f => decide (f.1 ∈ BEAST_LONG)) = 0 := by
      rw [List.countP_eq_zero]
      intro f hf
      simpa using (hshort f hf).2
    rw [this]
  · intro hlong
    have hty : ∀ f ∈ frames, f.1 ∈ BEAST_TYPES := by
      intro f hf
      have hl := hlong f hf
      have : f.1 = 0x33 ∨ f.1 = 0x35 := by simpa [BEAST_LONG] using hl
      rcases this with h | h <;> rw [h] <;> decide
    rw [count_beast_frames_eq_countAux, countAux_frames frames hty]
    have : frames.countP (fun f => decide (f.1 ∈ BEAST_LONG)) = frames.length := by
      rw [List.countP_eq_length]
      intro f hf
      simpa using hlong f hf
    rw [this]

theorem count_beast_frames_wellformed_witness :
    count_beast_frames
        (([((0x32 : Nat), [1, 0x1a, 3]), ((0x31 : Nat), ([] : List Nat))].map
          (fun f => mkFrame f.1 f.2)).join) = (2, 0) ∧
    count_beast_frames
        (([((0x33 : Nat), [0x1a, 0x1a]), ((0x35 : Nat), [7])].map
          (fun f => mkFrame f.1 f.2)).join) = (2, 2) :=
  ⟨(count_beast_frames_wellformed _).1 (by decide),
   (count_beast_frames_wellformed _).2 (by decide)⟩

/-- C9: the scan of `count_beast_frames` is total (it is a function on all
of `List Nat`, including `[]` and one-byte buffers) and memory-safe: every
index it reads is strictly below the buffer length, and the lookahead read
of the byte after an escape byte at index `i` happens only when
`i + 2 ≤ length`, i.e. the escape index is at most `length - 2`. -/
theorem count_beast_frames_reads_safe (data : List Nat) :
    (∀ j ∈ cbfReads data, j < data.length) ∧
    (∀ k ∈ cbfLookaheads data, k + 2 ≤ data.length) := by
  have := cbfLoop_reads_bound data.length data 0 0 0 [] []
    (by intro j hj; simp at hj) (by intro k hk; simp at hk)
  simpa [cbfReads, cbfLookaheads] using this

theorem count_beast_frames_reads_safe_witness :
    (2 < ([0x1a, 0x31, 5, 0x1a] : List Nat).length) ∧
    ((0 : Nat) + 2 ≤ ([0x1a, 0x31, 5, 0x1a] : List Nat).length) :=
  ⟨(count_beast_frames_reads_safe [0x1a, 0x31, 5, 0x1a]).1 2 (by decide),
   (count_beast_frames_reads_safe [0x1a, 0x31, 5, 0x1a]).2 0 (by decide)⟩

/-! ## Claim theorems for the origin classifier -/

/-- C7: a peer-cache refresh never raises past its caller (the embedding is
total and absorbs exceptions as `ApiResult.exc`), and any failure — an
exception, a non-200 reply, a missing token (NetBird) or missing socket
(Tailscale) — leaves both the peer mapping and the cache timestamp
untouched; a successful refresh replaces the whole mapping with the
freshly built one and stamps the timestamp, never exposing a partially
built mapping. -/
theorem refresh_atomic (cfg : Config) (env : Env) (now : Nat) (st : VpnState) :
    ((cfg.NETBIRD_API_TOKEN = "" → _refresh_netbird cfg env now st = st) ∧
     (env.netbirdApi = .exc → _refresh_netbird cfg env now st = st) ∧
     (∀ status body, env.netbirdApi = .resp status body → status ≠ 200 →
       _refresh_netbird cfg env now st = st) ∧
     (∀ body, env.netbirdApi = .resp 200 body → cfg.NETBIRD_API_TOKEN ≠ "" →
       _refresh_netbird cfg env now st =
         { st with netbirdPeers := buildNetbirdMapping body, netbirdCacheTs := now })) ∧
    ((env.tailscaleSockExists = false → _refresh_tailscale env now st = st) ∧
     (env.tailscaleApi = .exc → _refresh_tailscale env now st = st) ∧
     (∀ status body, env.tailscaleApi = .resp status body → status ≠ 200 →
       _refresh_tailscale env now st = st) ∧
     (∀ body, env.tailscaleApi = .resp 200 body → env.tailscaleSockExists = true →
       _refresh_tailscale env now st =
         { st with tailscalePeers := buildTailscaleMapping body, tailscaleCacheTs := now })) := by
  refine ⟨⟨?_, ?_, ?_, ?_⟩, ⟨?_, ?_, ?_, ?_⟩⟩
  · intro h; simp [_refresh_netbird, h]
  · intro h; unfold _refresh_netbird; rw [h]; split <;> rfl
  · intro status body h hne; unfold _refresh_netbird; rw [h]; split
    · rfl
    · simp [hne]
  · intro body h htok; unfold _refresh_netbird; rw [h]; simp [htok]
  · intro h; simp [_refresh_tailscale, h]
  · intro h; unfold _refresh_tailscale; rw [h]; split <;> rfl
  · intro status body h hne; unfold _refresh_tailscale; rw [h]; split
    · rfl
    · simp [hne]
  · intro body h hs; simp [_refresh_tailscale, h, hs]

/-- C8 (amended): a peer-cache lookup triggers a synchronous refresh iff
the overlay is consultable — enabled and, for the NetBird cache, with a
non-empty API token — and the cache age exceeds the 60-second TTL.  The
original claim ("iff the age exceeds the TTL" alone) fails when NetBird is
enabled with an empty token: see `classify_ttl_counterexample`.  Within
the TTL the lookup leaves the state untouched and performs no refresh, so
two lookups in the window observe the same snapshot, and the first lookup
past the TTL (with the overlay consultable) performs exactly one
refresh. -/
theorem get_peer_refresh_ttl (cfg : Config) (env : Env) (now : Nat) (st : VpnState) (a : Nat) :
    ((_get_netbird_peer cfg env now st a).refreshed = true ↔
      (cfg.NETBIRD_ENABLED = true ∧ cfg.NETBIRD_API_TOKEN ≠ "" ∧
        now - st.netbirdCacheTs > _CACHE_TTL)) ∧
    ((_get_tailscale_peer cfg env now st a).refreshed = true ↔
      (cfg.TAILSCALE_ENABLED = true ∧ now - st.tailscaleCacheTs > _CACHE_TTL)) ∧
    (now - st.netbirdCacheTs ≤ _CACHE_TTL →
      (_get_netbird_peer cfg env now st a).st = st ∧
      (_get_netbird_peer cfg env now st a).refreshed = false) ∧
    (now - st.tailscaleCacheTs ≤ _CACHE_TTL →
      (_get_tailscale_peer cfg env now st a).st = st ∧
      (_get_tailscale_peer cfg env now st a).refreshed = false) := by
  refine ⟨?_, ?_, ?_, ?_⟩
  · by_cases hg : cfg.NETBIRD_ENABLED = false ∨ cfg.NETBIRD_API_TOKEN = ""
    · simp [_get_netbird_peer, hg]
      intro h1 h2
      rcases hg with h | h
      · rw [h1] at h; exact absurd h (by simp)
      · exact absurd h h2
    · by_cases ht : now - st.netbirdCacheTs > _CACHE_TTL
      · simp [_get_netbird_peer, hg, ht]
        push_neg at hg
        exact ⟨by simpa using hg.1, hg.2⟩
      · simp [_get_netbird_peer, hg, ht]
  · by_cases hg : cfg.TAILSCALE_ENABLED = false
    · simp [_get_tailscale_peer, hg]
    · by_cases ht : now - st.tailscaleCacheTs > _CACHE_TTL
      · simp [_get_tailscale_peer, hg, ht]
      · simp [_get_tailscale_peer, hg, ht]
  · intro ht
    have ht2 : ¬ (now - st.netbirdCacheTs > _CACHE_TTL) := by omega
    by_cases hg : cfg.NETBIRD_ENABLED = false ∨ cfg.NETBIRD_API_TOKEN = ""
    · simp [_get_netbird_peer, hg]
    · simp [_get_netbird_peer, hg, ht2]
  · intro ht
    have ht2 : ¬ (now - st.tailscaleCacheTs > _CACHE_TTL) := by omega
    by_cases hg : cfg.TAILSCALE_ENABLED = false
    · simp [_get_tailscale_peer, hg]
    · simp [_get_tailscale_peer, hg, ht2]

theorem in_tailscale_range_enabled (cfg : Config) (a : Nat)
    (h : in_tailscale_range cfg a = true) : cfg.TAILSCALE_ENABLED = true := by
  simp [in_tailscale_range, Bool.and_eq_true] at h
  exact h.1

theorem in_netbird_range_enabled (cfg : Config) (a : Nat)
    (h : in_netbird_range cfg a = true) : cfg.NETBIRD_ENABLED = true := by
  simp [in_netbird_range, Bool.and_eq_true] at h
  exact h.1

theorem refresh_nb_preserves_ts (cfg : Config) (env : Env) (now : Nat) (st : VpnState) :
    (_refresh_netbird cfg env now st).tailscalePeers = st.tailscalePeers ∧
    (_refresh_netbird cfg env now st).tailscaleCacheTs = st.tailscaleCacheTs := by
  unfold _refresh_netbird
  by_cases h : cfg.NETBIRD_API_TOKEN = ""
  · simp [h]
  · simp only [h, if_false, ite_false]
    rcases env.netbirdApi with _ | ⟨status, body⟩
    · exact ⟨rfl, rfl⟩
    · by_cases hs : status = 200 <;> simp [hs]

theorem lazyNb_preserves_ts (cfg : Config) (env : Env) (now : Nat) (st : VpnState) :
    (lazyRefreshNbSpec cfg env now st).tailscalePeers = st.tailscalePeers ∧
    (lazyRefreshNbSpec cfg env now st).tailscaleCacheTs = st.tailscaleCacheTs := by
  unfold lazyRefreshNbSpec
  split
  · exact refresh_nb_preserves_ts cfg env now st
  · exact ⟨rfl, rfl⟩

theorem lazyTs_congr (env : Env) (now : Nat) (s1 s2 : VpnState)
    (hp : s1.tailscalePeers = s2.tailscalePeers)
    (ht : s1.tailscaleCacheTs = s2.tailscaleCacheTs) :
    (lazyRefreshTsSpec env now s1).tailscalePeers =
      (lazyRefreshTsSpec env now s2).tailscalePeers := by
  unfold lazyRefreshTsSpec _refresh_tailscale
  rw [ht]
  by_cases hc : now - s2.tailscaleCacheTs > _CACHE_TTL
  · simp only [hc, ite_true]
    by_cases hs : env.tailscaleSockExists = false
    · simp [hs, hp]
    · simp only [hs, ite_false, if_false]
      rcases env.tailscaleApi with _ | ⟨status, body⟩
      · exact hp
      · by_cases h2 : status = 200 <;> simp [h2, hp]
  · simp [hc, hp]

theorem classifyTailscaleStep_cls (cfg : Config) (env : Env) (now : Nat)
    (st' : VpnState) (a : Nat) (nbL nbR : Bool) :
    (classifyTailscaleStep cfg env now st' a nbL nbR).cls =
      (if in_tailscale_range cfg a &&
          ((lazyRefreshTsSpec env now st').tailscalePeers.lookup a).isSome then "tailscale"
       else if in_netbird_range cfg a then "netbird"
       else if in_tailscale_range cfg a then "tailscale" else "public") := by
  by_cases hts : in_tailscale_range cfg a = true
  · have hen : cfg.TAILSCALE_ENABLED = true := in_tailscale_range_enabled cfg a hts
    have hgu : ¬ (cfg.TAILSCALE_ENABLED = false) := by simp [hen]
    unfold classifyTailscaleStep _get_tailscale_peer lazyRefreshTsSpec
    by_cases hc : now - st'.tailscaleCacheTs > _CACHE_TTL
    · simp only [hts, hgu, hc, ite_true, if_false, ite_false, if_true]
      rcases hpk : ((_refresh_tailscale env now st').tailscalePeers.lookup a) with _ | pk
      · simp only [hpk, classifyFallback, hts]
        simp
        split <;> rfl
      · simp [hpk, hts]
    · simp only [hts, hgu, hc, ite_true, if_false, ite_false, if_true]
      rcases hpk : (st'.tailscalePeers.lookup a) with _ | pk
      · simp only [hpk, classifyFallback, hts]
        simp
        split <;> rfl
      · simp [hpk, hts]
  · unfold classifyTailscaleStep
    simp only [hts, classifyFallback, Bool.false_and, if_false, ite_false]
    simp [hts]
    split <;> rfl

theorem get_nb_eq_lazy (cfg : Config) (env : Env) (now : Nat) (st : VpnState) (a : Nat)
    (hg : ¬ (cfg.NETBIRD_ENABLED = false ∨ cfg.NETBIRD_API_TOKEN = "")) :
    _get_netbird_peer cfg env now st a =
      ⟨lazyRefreshNbSpec cfg env now st,
       decide (now - st.netbirdCacheTs > _CACHE_TTL),
       (lazyRefreshNbSpec cfg env now st).netbirdPeers.lookup a⟩ := by
  unfold _get_netbird_peer lazyRefreshNbSpec
  by_cases hc : now - st.netbirdCacheTs > _CACHE_TTL <;> simp [hg, hc]

theorem classify_cls_eq_spec (cfg : Config) (env : Env) (now : Nat) (st : VpnState)
    (a : Nat) (hinv : cfg.NETBIRD_API_TOKEN = "" → st.netbirdPeers = []) :
    (classify_connection cfg env now st (some a)).cls =
      classifySpec cfg env now st (some a) := by
  simp only [classify_connection, classifySpec]
  by_cases hnb : in_netbird_range cfg a = true
  · by_cases hg : cfg.NETBIRD_ENABLED = false ∨ cfg.NETBIRD_API_TOKEN = ""
    · have htok : cfg.NETBIRD_API_TOKEN = "" := by
        rcases hg with h | h
        · exact absurd (in_netbird_range_enabled cfg a hnb) (by simp [h])
        · exact h
      have hpeers : st.netbirdPeers = [] := hinv htok
      have hstA : lazyRefreshNbSpec cfg env now st = st := by
        unfold lazyRefreshNbSpec _refresh_netbird
        simp [htok]
      have hget : _get_netbird_peer cfg env now st a = ⟨st, false, none⟩ := by
        simp [_get_netbird_peer, hg]
      simp only [hnb, ite_true, hget]
      rw [classifyTailscaleStep_cls, hstA, hpeers]
      simp [hnb]
    · rw [show (_get_netbird_peer cfg env now st a) = _ from get_nb_eq_lazy cfg env now st a hg]
      rcases hpk : ((lazyRefreshNbSpec cfg env now st).netbirdPeers.lookup a) with _ | pk
      · simp only [hpk, hnb, ite_true]
        rw [classifyTailscaleStep_cls]
        simp [hnb]
      · simp only [hpk, hnb, ite_true]
        simp [hnb]
  · have hnb2 : in_netbird_range cfg a = false := by simpa using hnb
    simp only [hnb2, Bool.false_and, if_false, ite_false, Bool.false_eq_true]
    rw [classifyTailscaleStep_cls]
    have hcongr := lazyTs_congr env now st (lazyRefreshNbSpec cfg env now st)
      (lazyNb_preserves_ts cfg env now st).1.symm (lazyNb_preserves_ts cfg env now st).2.symm
    rw [hcongr]
    simp [hnb2]

theorem classify_public_outside (cfg : Config) (env : Env) (now : Nat) (st : VpnState)
    (a : Nat) (hnb : in_netbird_range cfg a = false)
    (hts : in_tailscale_range cfg a = false) :
    (classify_connection cfg env now st (some a)).cls = "public" := by
  unfold classify_connection classifyTailscaleStep classifyFallback
  simp [hnb, hts]

/-- C1: `classify_connection` follows the documented five-step precedence:
its result equals the spec-side cascade `classifySpec` (explicit overlay-A
record after lazy refresh, then overlay-B record, then overlay-A range,
then overlay-B range, then public) on every state satisfying the module
invariant that an empty NetBird token implies an empty NetBird cache (with
no token the refresh never populates the cache); and an address outside
both ranges is public regardless of either cache's contents. -/
theorem classify_five_step_precedence (cfg : Config) (env : Env) (now : Nat)
    (st : VpnState) (ip : Option Nat) :
    ((cfg.NETBIRD_API_TOKEN = "" → st.netbirdPeers = []) →
      (classify_connection cfg env now st ip).cls = classifySpec cfg env now st ip) ∧
    (∀ a, ip = some a → in_netbird_range cfg a = false →
      in_tailscale_range cfg a = false →
      (classify_connection cfg env now st ip).cls = "public") := by
  constructor
  · intro hinv
    match ip with
    | none => rfl
    | some a => exact classify_cls_eq_spec cfg env now st a hinv
  · intro a hip hnb hts
    subst hip
    exact classify_public_outside cfg env now st a hnb hts

theorem classify_five_step_precedence_witness :
    (classify_connection ⟨true, "tok", ⟨1681915904, 10⟩, true, ⟨1681915904, 10⟩⟩
        ⟨.exc, false, .exc⟩ 10 ⟨[], 0, [], 0⟩ (some 5)).cls =
      classifySpec ⟨true, "tok", ⟨1681915904, 10⟩, true, ⟨1681915904, 10⟩⟩
        ⟨.exc, false, .exc⟩ 10 ⟨[], 0, [], 0⟩ (some 5) ∧
    (classify_connection ⟨true, "tok", ⟨1681915904, 10⟩, true, ⟨1681915904, 10⟩⟩
        ⟨.exc, false, .exc⟩ 10 ⟨[], 0, [], 0⟩ (some 5)).cls = "public" :=
  ⟨(classify_five_step_precedence _ _ 10 _ (some 5)).1
      (fun h => absurd h (by decide)),
   (classify_five_step_precedence _ _ 10 _ (some 5)).2 5 rfl (by decide) (by decide)⟩

theorem refresh_atomic_witness :
    _refresh_netbird ⟨true, "tok", ⟨0, 0⟩, true, ⟨0, 0⟩⟩ ⟨.exc, false, .exc⟩ 5
      ⟨[⟨7, ⟨some 7, [], "n", "h"⟩⟩], 3, [], 4⟩ = ⟨[⟨7, ⟨some 7, [], "n", "h"⟩⟩], 3, [], 4⟩ :=
  (refresh_atomic ⟨true, "tok", ⟨0, 0⟩, true, ⟨0, 0⟩⟩ ⟨.exc, false, .exc⟩ 5
    ⟨[⟨7, ⟨some 7, [], "n", "h"⟩⟩], 3, [], 4⟩).1.2.1 rfl

theorem get_peer_refresh_ttl_witness :
    (_get_netbird_peer ⟨true, "tok", ⟨0, 0⟩, true, ⟨0, 0⟩⟩ ⟨.exc, false, .exc⟩ 30
        ⟨[], 0, [], 0⟩ 5).st = ⟨[], 0, [], 0⟩ ∧
    (_get_netbird_peer ⟨true, "tok", ⟨0, 0⟩, true, ⟨0, 0⟩⟩ ⟨.exc, false, .exc⟩ 30
        ⟨[], 0, [], 0⟩ 5).refreshed = false :=
  (get_peer_refresh_ttl ⟨true, "tok", ⟨0, 0⟩, true, ⟨0, 0⟩⟩ ⟨.exc, false, .exc⟩ 30
    ⟨[], 0, [], 0⟩ 5).2.2.1 (by decide)

/-- C8 (counterexample): with NetBird enabled, an empty API token, an
empty never-refreshed cache of age 100 > 60, `classify_connection` on an
in-range address performs the NetBird peer-cache lookup but triggers no
refresh, refuting "a lookup triggers a refresh iff the cache age exceeds
the TTL". -/
theorem classify_ttl_counterexample :
    (classify_connection ⟨true, "", ⟨1681915904, 10⟩, false, ⟨1681915904, 10⟩⟩
        ⟨.exc, false, .exc⟩ 100 ⟨[], 0, [], 0⟩ (some 1681915905)).nbLookup = true ∧
    (classify_connection ⟨true, "", ⟨1681915904, 10⟩, false, ⟨1681915904, 10⟩⟩
        ⟨.exc, false, .exc⟩ 100 ⟨[], 0, [], 0⟩ (some 1681915905)).nbRefreshed = false ∧
    100 - (⟨[], 0, [], 0⟩ : VpnState).netbirdCacheTs > _CACHE_TTL := by
  refine ⟨?_, ?_, by decide⟩ <;> rfl

theorem runInbound_spec : ∀ (chunks : List (List Nat)) (ci : ConnInfo),
    (runInbound ci chunks).feeder_id = ci.feeder_id ∧
    (runInbound ci chunks).connection_id = ci.connection_id ∧
    (runInbound ci chunks).ip = ci.ip ∧
    (runInbound ci chunks).bytes_flushed = ci.bytes_flushed ∧
    (runInbound ci chunks).messages_flushed = ci.messages_flushed ∧
    (runInbound ci chunks).positions_flushed = ci.positions_flushed ∧
    (runInbound ci chunks).bytes = ci.bytes + (chunks.map List.length).sum ∧
    ∃ M P, P ≤ M ∧ (runInbound ci chunks).messages = ci.messages + M ∧
      (runInbound ci chunks).positions = ci.positions + P := by
  intro chunks
  induction chunks with
  | nil =>
    intro ci
    refine ⟨rfl, rfl, rfl, rfl, rfl, rfl, by simp [runInbound], 0, 0, le_refl 0, ?_, ?_⟩ <;>
      simp [runInbound]
  | cons c cs ih =>
    intro ci
    have h := ih (processChunk ci c)
    have hpc : (processChunk ci c).feeder_id = ci.feeder_id ∧
        (processChunk ci c).connection_id = ci.connection_id ∧
        (processChunk ci c).ip = ci.ip ∧
        (processChunk ci c).bytes_flushed = ci.bytes_flushed ∧
        (processChunk ci c).messages_flushed = ci.messages_flushed ∧
        (processChunk ci c).positions_flushed = ci.positions_flushed ∧
        (processChunk ci c).bytes = ci.bytes + c.length ∧
        (processChunk ci c).messages = ci.messages + (count_beast_frames c).1 ∧
        (processChunk ci c).positions = ci.positions + (count_beast_frames c).2 := by
      simp [processChunk]
    have hrun : runInbound ci (c :: cs) = runInbound (processChunk ci c) cs := by
      simp [runInbound]
    rw [hrun]
    obtain ⟨hM, hP, hPM, hmsg, hpos⟩ := h.2.2.2.2.2.2.2
    refine ⟨h.1.trans hpc.1, h.2.1.trans hpc.2.1, h.2.2.1.trans hpc.2.2.1,
      h.2.2.2.1.trans hpc.2.2.2.1, h.2.2.2.2.1.trans hpc.2.2.2.2.1,
      h.2.2.2.2.2.1.trans hpc.2.2.2.2.2.1, ?_,
      (count_beast_frames c).1 + hM, (count_beast_frames c).2 + hP, ?_, ?_, ?_⟩
    · rw [h.2.2.2.2.2.2.1, hpc.2.2.2.2.2.2.1]
      simp
      omega
    · have := count_pos_le_msgs c
      omega
    · rw [hmsg, hpc.2.2.2.2.2.2.2.1]
      omega
    · rw [hpos, hpc.2.2.2.2.2.2.2.2]
      omega

theorem relayResult_init_spec (fid cid ip : Nat) (chunks : List (List Nat))
    (ending : SessionEnd) :
    (relayResult (initConnInfo fid cid ip) chunks ending).feeder_id = fid ∧
    (relayResult (initConnInfo fid cid ip) chunks ending).connection_id = cid ∧
    (relayResult (initConnInfo fid cid ip) chunks ending).bytes_flushed = 0 ∧
    (relayResult (initConnInfo fid cid ip) chunks ending).messages_flushed = 0 ∧
    (relayResult (initConnInfo fid cid ip) chunks ending).positions_flushed = 0 ∧
    (relayResult (initConnInfo fid cid ip) chunks ending).positions ≤
      (relayResult (initConnInfo fid cid ip) chunks ending).messages ∧
    (ending ≠ SessionEnd.upstreamFail →
      (relayResult (initConnInfo fid cid ip) chunks ending).bytes =
        (chunks.map List.length).sum) := by
  cases ending with
  | upstreamFail => simp [relayResult, initConnInfo]
  | eof | reset | brokenPipe | cancelled =>
    have h := runInbound_spec chunks (initConnInfo fid cid ip)
    obtain ⟨M, P, hPM, hmsg, hpos⟩ := h.2.2.2.2.2.2.2
    refine ⟨h.1, h.2.1, h.2.2.2.1, h.2.2.2.2.1, h.2.2.2.2.2.1, ?_, ?_⟩
    · show (runInbound (initConnInfo fid cid ip) chunks).positions ≤
        (runInbound (initConnInfo fid cid ip) chunks).messages
      rw [hmsg, hpos]
      simp [initConnInfo]
      omega
    · intro _
      show (runInbound (initConnInfo fid cid ip) chunks).bytes = _
      rw [h.2.2.2.2.2.2.1]
      simp [initConnInfo]

/-! ## Claim theorems for the session engine and reconciler -/

/-- C3: on every termination path of `handle_client` (EOF, reset, broken
pipe, cancellation, upstream-connect failure) the teardown runs exactly
once: exactly one disconnect record is written carrying the session's
final byte total, the unflushed delta is flushed iff it is non-zero
(carrying the full delta, since no mid-session flush occurred and the
watermarks are still zero), and the session's entry is removed from the
live-session registry; for a non-upstream-failure ending the final byte
total equals the bytes the client sent. -/
theorem handle_client_teardown (wid fid cid ip : Nat) (chunks : List (List Nat))
    (ending : SessionEnd) (reg : List (Nat × ConnInfo))
    (hreg : ∀ e ∈ reg, e.1 ≠ wid) :
    ((handle_client_session wid fid cid ip chunks ending reg).1.countP
        (fun e => match e with | DbEvent.log_disconnection _ _ _ => true | _ => false) = 1) ∧
    (DbEvent.log_disconnection fid cid
        (relayResult (initConnInfo fid cid ip) chunks ending).bytes ∈
      (handle_client_session wid fid cid ip chunks ending reg).1) ∧
    ((handle_client_session wid fid cid ip chunks ending reg).1.countP
        (fun e => match e with | DbEvent.update_feeder_stats _ _ _ _ => true | _ => false) =
      if (relayResult (initConnInfo fid cid ip) chunks ending).bytes ≠ 0 ∨
         (relayResult (initConnInfo fid cid ip) chunks ending).messages ≠ 0 ∨
         (relayResult (initConnInfo fid cid ip) chunks ending).positions ≠ 0
       then 1 else 0) ∧
    ((relayResult (initConnInfo fid cid ip) chunks ending).bytes ≠ 0 ∨
     (relayResult (initConnInfo fid cid ip) chunks ending).messages ≠ 0 ∨
     (relayResult (initConnInfo fid cid ip) chunks ending).positions ≠ 0 →
      DbEvent.update_feeder_stats fid
        (relayResult (initConnInfo fid cid ip) chunks ending).bytes
        (relayResult (initConnInfo fid cid ip) chunks ending).messages
        (relayResult (initConnInfo fid cid ip) chunks ending).positions ∈
        (handle_client_session wid fid cid ip chunks ending reg).1) ∧
    ((handle_client_session wid fid cid ip chunks ending reg).2 = reg) ∧
    (ending ≠ SessionEnd.upstreamFail →
      (relayResult (initConnInfo fid cid ip) chunks ending).bytes =
        (chunks.map List.length).sum) := by
  obtain ⟨hfid, hcid, hbf, hmf, hpf, hpm, hbytes⟩ :=
    relayResult_init_spec fid cid ip chunks ending
  set ci := relayResult (initConnInfo fid cid ip) chunks ending with hci
  have hev : (handle_client_session wid fid cid ip chunks ending reg).1 = teardown ci := rfl
  have hcond : ((ci.bytes ≠ 0 ∨ ci.messages ≠ 0 ∨ ci.positions ≠ 0) ↔
      (ci.bytes - ci.bytes_flushed > 0 ∨ ci.messages - ci.messages_flushed > 0)) := by
    rw [hbf, hmf]
    omega
  have htd : teardown ci =
      (if ci.bytes - ci.bytes_flushed > 0 ∨ ci.messages - ci.messages_flushed > 0 then
        [DbEvent.update_feeder_stats ci.feeder_id (ci.bytes - ci.bytes_flushed)
          (ci.messages - ci.messages_flushed) (ci.positions - ci.positions_flushed)]
      else []) ++ [DbEvent.log_disconnection ci.feeder_id ci.connection_id ci.bytes] := rfl
  refine ⟨?_, ?_, ?_, ?_, ?_, hbytes⟩
  · rw [hev, htd]
    by_cases hc : ci.bytes - ci.bytes_flushed > 0 ∨ ci.messages - ci.messages_flushed > 0
    · rw [if_pos hc]
      simp [List.countP_append, List.countP_cons]
    · rw [if_neg hc]
      simp [List.countP_append, List.countP_cons]
  · rw [hev, htd, hfid, hcid]
    simp
  · rw [hev, htd]
    by_cases hc : ci.bytes - ci.bytes_flushed > 0 ∨ ci.messages - ci.messages_flushed > 0
    · rw [if_pos hc, if_pos (hcond.mpr hc)]
      simp [List.countP_append, List.countP_cons]
    · rw [if_neg hc, if_neg (fun h => hc (hcond.mp h))]
      simp [List.countP_append, List.countP_cons]
  · intro h
    have hc := hcond.mp h
    rw [hev, htd, if_pos hc, hfid, hbf, hmf, hpf]
    simp
  · show removeKey (((wid, initConnInfo fid cid ip) :: reg).map
      (fun e => if e.1 = wid then (wid, ci) else e)) wid = reg
    have hmap : ((wid, initConnInfo fid cid ip) :: reg).map
        (fun e => if e.1 = wid then (wid, ci) else e) = (wid, ci) :: reg := by
      simp only [List.map_cons, if_pos rfl]
      congr 1
      have : ∀ e ∈ reg, (if e.1 = wid then (wid, ci) else e) = e := fun e he =>
        if_neg (hreg e he)
      calc reg.map (fun e => if e.1 = wid then (wid, ci) else e) = reg.map id := by
            exact List.map_congr_left this
        _ = reg := List.map_id reg
    rw [hmap]
    show removeKey ((wid, ci) :: reg) wid = reg
    unfold removeKey
    rw [List.filter_cons_of_neg (by simp)]
    exact List.filter_eq_self.mpr (fun a ha => by simpa using hreg a ha)

theorem tickLoop_master (mlat : List Nat) : ∀ (reg : List (Nat × ConnInfo)) (store : Store)
    (evs : List DbEvent), (∀ e ∈ reg, sessionInv e.2 ∧ deltaInv e.2) →
    (tickLoop [] mlat reg store evs).ok = true ∧
    (∀ x ∈ evs, x ∈ (tickLoop [] mlat reg store evs).events) ∧
    (∀ e ∈ reg,
      ((e.2.bytes - e.2.bytes_flushed ≠ 0 ∨ e.2.messages - e.2.messages_flushed ≠ 0 ∨
        e.2.positions - e.2.positions_flushed ≠ 0) →
        DbEvent.update_feeder_stats e.2.feeder_id (e.2.bytes - e.2.bytes_flushed)
          (e.2.messages - e.2.messages_flushed) (e.2.positions - e.2.positions_flushed) ∈
          (tickLoop [] mlat reg store evs).events) ∧
      ((e.2.bytes - e.2.bytes_flushed = 0 ∧ e.2.messages - e.2.messages_flushed = 0 ∧
        e.2.positions - e.2.positions_flushed = 0) →
        DbEvent.touch_feeder e.2.feeder_id ∈ (tickLoop [] mlat reg store evs).events) ∧
      DbEvent.update_feeder_mlat e.2.feeder_id (decide (e.2.ip ∈ mlat)) ∈
        (tickLoop [] mlat reg store evs).events) ∧
    List.Forall₂ (fun e e' : Nat × ConnInfo =>
      e'.1 = e.1 ∧ e'.2.feeder_id = e.2.feeder_id ∧ e'.2.ip = e.2.ip ∧
      e'.2.bytes = e.2.bytes ∧ e'.2.messages = e.2.messages ∧
      e'.2.positions = e.2.positions ∧ e'.2.bytes_flushed = e'.2.bytes ∧
      e'.2.messages_flushed = e'.2.messages ∧ e'.2.positions_flushed = e'.2.positions)
      reg (tickLoop [] mlat reg store evs).reg := by
  intro reg
  induction reg with
  | nil =>
    intro store evs _
    refine ⟨rfl, fun x hx => hx, fun e he => absurd he (List.not_mem_nil e), List.Forall₂.nil⟩
  | cons hd rest ih =>
    intro store evs hinv
    obtain ⟨wid, ci⟩ := hd
    have hhd := hinv (wid, ci) (List.mem_cons_self _ _)
    dsimp only at hhd
    have hrest : ∀ e ∈ rest, sessionInv e.2 ∧ deltaInv e.2 :=
      fun e he => hinv e (List.mem_cons_of_mem _ he)
    have hnf : ¬ ((wid, ci).2.feeder_id ∈ ([] : List Nat)) := List.not_mem_nil _
    by_cases hc : ci.bytes - ci.bytes_flushed > 0 ∨ ci.messages - ci.messages_flushed > 0
    · rw [tickLoop, if_neg hnf, if_pos hc]
      obtain ⟨IH1, IH2, IH3, IH4⟩ := ih _ _ hrest
      refine ⟨IH1, ?_, ?_, ?_⟩
      · intro x hx
        exact IH2 x (List.mem_append_left _ hx)
      · intro e he
        rcases List.mem_cons.mp he with heq | hmem
        · subst heq
          refine ⟨fun _ => ?_, fun hz => ?_, ?_⟩
          · exact IH2 _ (List.mem_append_right _ (by simp))
          · exact absurd hz (by dsimp only; omega)
          · exact IH2 _ (List.mem_append_right _ (by simp))
        · exact IH3 e hmem
      · exact List.Forall₂.cons ⟨rfl, rfl, rfl, rfl, rfl, rfl, rfl, rfl, rfl⟩ IH4
    · have hup : ci.positions - ci.positions_flushed = 0 := by
        have := hhd.2
        unfold deltaInv at this
        omega
      rw [tickLoop, if_neg hnf, if_neg hc]
      obtain ⟨IH1, IH2, IH3, IH4⟩ := ih _ _ hrest
      refine ⟨IH1, ?_, ?_, ?_⟩
      · intro x hx
        exact IH2 x (List.mem_append_left _ hx)
      · intro e he
        rcases List.mem_cons.mp he with heq | hmem
        · subst heq
          refine ⟨fun hnz => ?_, fun _ => ?_, ?_⟩
          · exact absurd hnz (by dsimp only; omega)
          · exact IH2 _ (List.mem_append_right _ (by simp))
          · exact IH2 _ (List.mem_append_right _ (by simp))
        · exact IH3 e hmem
      · refine List.Forall₂.cons ?_ IH4
        have hinv1 := hhd.1
        unfold sessionInv at hinv1
        refine ⟨rfl, rfl, rfl, rfl, rfl, rfl, by dsimp only; omega, by dsimp only; omega,
          by dsimp only; omega⟩

/-- C4: in one `stats_flusher` tick over a registry snapshot, every
session with a non-zero unflushed delta has exactly that delta flushed to
the durable store, every session with a zero delta has its feeder touched
instead, every session's feeder gets its MLAT flag set to true exactly
when its address is in the tick's telemetry snapshot, and after the tick
every session's unflushed delta is zero with all three watermarks equal to
the (unchanged) running totals. -/
theorem stats_flusher_tick_spec (mlat_ips : List Nat) (reg : List (Nat × ConnInfo))
    (store : Store) (hinv : ∀ e ∈ reg, sessionInv e.2 ∧ deltaInv e.2) :
    (stats_flusher_tick [] mlat_ips reg store).ok = true ∧
    (∀ e ∈ reg,
      ((e.2.bytes - e.2.bytes_flushed ≠ 0 ∨ e.2.messages - e.2.messages_flushed ≠ 0 ∨
        e.2.positions - e.2.positions_flushed ≠ 0) →
        DbEvent.update_feeder_stats e.2.feeder_id (e.2.bytes - e.2.bytes_flushed)
          (e.2.messages - e.2.messages_flushed) (e.2.positions - e.2.positions_flushed) ∈
          (stats_flusher_tick [] mlat_ips reg store).events) ∧
      ((e.2.bytes - e.2.bytes_flushed = 0 ∧ e.2.messages - e.2.messages_flushed = 0 ∧
        e.2.positions - e.2.positions_flushed = 0) →
        DbEvent.touch_feeder e.2.feeder_id ∈
          (stats_flusher_tick [] mlat_ips reg store).events) ∧
      (e.2.ip ∈ mlat_ips →
        DbEvent.update_feeder_mlat e.2.feeder_id true ∈
          (stats_flusher_tick [] mlat_ips reg store).events) ∧
      (e.2.ip ∉ mlat_ips →
        DbEvent.update_feeder_mlat e.2.feeder_id false ∈
          (stats_flusher_tick [] mlat_ips reg store).events)) ∧
    List.Forall₂ (fun e e' : Nat × ConnInfo =>
      e'.1 = e.1 ∧ e'.2.feeder_id = e.2.feeder_id ∧ e'.2.ip = e.2.ip ∧
      e'.2.bytes = e.2.bytes ∧ e'.2.messages = e.2.messages ∧
      e'.2.positions = e.2.positions ∧
      e'.2.bytes - e'.2.bytes_flushed = 0 ∧ e'.2.messages - e'.2.messages_flushed = 0 ∧
      e'.2.positions - e'.2.positions_flushed = 0 ∧
      e'.2.bytes_flushed = e'.2.bytes ∧ e'.2.messages_flushed = e'.2.messages ∧
      e'.2.positions_flushed = e'.2.positions) reg
      (stats_flusher_tick [] mlat_ips reg store).reg := by
  obtain ⟨h1, h2, h3, h4⟩ := tickLoop_master mlat_ips reg store [] hinv
  have hred : stats_flusher_tick [] mlat_ips reg store =
      { ok := true,
        store := mark_inactive_feeders (tickLoop [] mlat_ips reg store []).store
          ((tickLoop [] mlat_ips reg store []).reg.map (fun e => e.2.feeder_id)),
        events := (tickLoop [] mlat_ips reg store []).events ++
          [DbEvent.aircraft_count,
           DbEvent.mark_inactive_feeders
             ((tickLoop [] mlat_ips reg store []).reg.map (fun e => e.2.feeder_id)),
           DbEvent.refresh_caches],
        reg := (tickLoop [] mlat_ips reg store []).reg } := by
    unfold stats_flusher_tick
    rw [if_pos h1]
  rw [hred]
  refine ⟨rfl, ?_, ?_⟩
  · intro e he
    obtain ⟨hf, ht, hm⟩ := h3 e he
    refine ⟨fun hnz => List.mem_append_left _ (hf hnz),
            fun hz => List.mem_append_left _ (ht hz), ?_, ?_⟩
    · intro hmem
      have : decide (e.2.ip ∈ mlat_ips) = true := decide_eq_true hmem
      exact List.mem_append_left _ (this ▸ hm)
    · intro hnmem
      have : decide (e.2.ip ∈ mlat_ips) = false := decide_eq_false hnmem
      exact List.mem_append_left _ (this ▸ hm)
  · refine List.Forall₂.imp ?_ h4
    intro e e' hrel
    obtain ⟨r1, r2, r3, r4, r5, r6, r7, r8, r9⟩ := hrel
    exact ⟨r1, r2, r3, r4, r5, r6, by omega, by omega, by omega, r7, r8, r9⟩

theorem stats_flusher_tick_spec_witness :
    (stats_flusher_tick [] [1001]
      [(10, ⟨1, 11, 1001, 50, 0, 3, 0, 1, 0⟩), (20, ⟨2, 12, 1002, 70, 0, 4, 0, 2, 0⟩)]
      [⟨1, "active", 0, 0, 0, false⟩, ⟨2, "active", 0, 0, 0, false⟩]).ok = true ∧
    DbEvent.update_feeder_mlat 1 true ∈
      (stats_flusher_tick [] [1001]
        [(10, ⟨1, 11, 1001, 50, 0, 3, 0, 1, 0⟩), (20, ⟨2, 12, 1002, 70, 0, 4, 0, 2, 0⟩)]
        [⟨1, "active", 0, 0, 0, false⟩, ⟨2, "active", 0, 0, 0, false⟩]).events ∧
    DbEvent.update_feeder_mlat 2 false ∈
      (stats_flusher_tick [] [1001]
        [(10, ⟨1, 11, 1001, 50, 0, 3, 0, 1, 0⟩), (20, ⟨2, 12, 1002, 70, 0, 4, 0, 2, 0⟩)]
        [⟨1, "active", 0, 0, 0, false⟩, ⟨2, "active", 0, 0, 0, false⟩]).events :=
  ⟨(stats_flusher_tick_spec [1001] _ _ (by decide)).1,
   ((stats_flusher_tick_spec [1001]
      [(10, ⟨1, 11, 1001, 50, 0, 3, 0, 1, 0⟩), (20, ⟨2, 12, 1002, 70, 0, 4, 0, 2, 0⟩)]
      [⟨1, "active", 0, 0, 0, false⟩, ⟨2, "active", 0, 0, 0, false⟩]
      (by decide)).2.1 (10, ⟨1, 11, 1001, 50, 0, 3, 0, 1, 0⟩) (by decide)).2.2.1 (by decide),
   ((stats_flusher_tick_spec [1001]
      [(10, ⟨1, 11, 1001, 50, 0, 3, 0, 1, 0⟩), (20, ⟨2, 12, 1002, 70, 0, 4, 0, 2, 0⟩)]
      [⟨1, "active", 0, 0, 0, false⟩, ⟨2, "active", 0, 0, 0, false⟩]
      (by decide)).2.1 (20, ⟨2, 12, 1002, 70, 0, 4, 0, 2, 0⟩) (by decide)).2.2.2 (by decide)⟩

theorem tickLoop_nofail_ok (mlat : List Nat) : ∀ (reg : List (Nat × ConnInfo))
    (store : Store) (evs : List DbEvent), (tickLoop [] mlat reg store evs).ok = true := by
  intro reg
  induction reg with
  | nil => intro store evs; rfl
  | cons hd rest ih =>
    intro store evs
    obtain ⟨wid, ci⟩ := hd
    have hnf : ¬ ((wid, ci).2.feeder_id ∈ ([] : List Nat)) := List.not_mem_nil _
    by_cases hc : ci.bytes - ci.bytes_flushed > 0 ∨ ci.messages - ci.messages_flushed > 0
    · rw [tickLoop, if_neg hnf, if_pos hc]; exact ih _ _
    · rw [tickLoop, if_neg hnf, if_neg hc]; exact ih _ _

theorem tickLoop_reg_fids (mlat : List Nat) : ∀ (reg : List (Nat × ConnInfo))
    (store : Store) (evs : List DbEvent),
    (tickLoop [] mlat reg store evs).reg.map (fun e => e.2.feeder_id) =
      reg.map (fun e => e.2.feeder_id) := by
  intro reg
  induction reg with
  | nil => intro store evs; rfl
  | cons hd rest ih =>
    intro store evs
    obtain ⟨wid, ci⟩ := hd
    have hnf : ¬ ((wid, ci).2.feeder_id ∈ ([] : List Nat)) := List.not_mem_nil _
    by_cases hc : ci.bytes - ci.bytes_flushed > 0 ∨ ci.messages - ci.messages_flushed > 0
    · rw [tickLoop, if_neg hnf, if_pos hc]
      show _ :: _ = _
      rw [ih]
      simp
    · rw [tickLoop, if_neg hnf, if_neg hc]
      show _ :: _ = _
      rw [ih]
      simp

theorem mem_map_fixed {s : Store} {rec : FeederRec} (f : FeederRec → FeederRec)
    (h : rec ∈ s) (hf : f rec = rec) : rec ∈ s.map f :=
  hf ▸ List.mem_map_of_mem f h

theorem tickLoop_store_mem (mlat : List Nat) : ∀ (reg : List (Nat × ConnInfo))
    (store : Store) (evs : List DbEvent) (rec : FeederRec),
    rec ∈ store → (∀ e ∈ reg, e.2.feeder_id ≠ rec.fid) →
    rec ∈ (tickLoop [] mlat reg store evs).store := by
  intro reg
  induction reg with
  | nil => intro store evs rec hmem _; exact hmem
  | cons hd rest ih =>
    intro store evs rec hmem hfid
    obtain ⟨wid, ci⟩ := hd
    have hne : ci.feeder_id ≠ rec.fid := hfid (wid, ci) (List.mem_cons_self _ _)
    have hrest : ∀ e ∈ rest, e.2.feeder_id ≠ rec.fid :=
      fun e he => hfid e (List.mem_cons_of_mem _ he)
    have hnf : ¬ ((wid, ci).2.feeder_id ∈ ([] : List Nat)) := List.not_mem_nil _
    have hstats : ∀ b m p, rec ∈ update_feeder_stats store ci.feeder_id b m p := by
      intro b m p
      exact mem_map_fixed _ hmem (by
        rw [if_neg (fun h => hne h.symm)])
    have htouch : rec ∈ touch_feeder store ci.feeder_id :=
      mem_map_fixed _ hmem (by rw [if_neg (fun h => hne h.symm)])
    by_cases hc : ci.bytes - ci.bytes_flushed > 0 ∨ ci.messages - ci.messages_flushed > 0
    · rw [tickLoop, if_neg hnf, if_pos hc]
      refine ih _ _ rec ?_ hrest
      exact mem_map_fixed _ (hstats _ _ _) (by rw [if_neg (fun h => hne h.symm)])
    · rw [tickLoop, if_neg hnf, if_neg hc]
      refine ih _ _ rec ?_ hrest
      exact mem_map_fixed _ htouch (by rw [if_neg (fun h => hne h.symm)])

/-- C5 (amended): after one reconciler tick, every feeder with a durable
record whose id is not among the live sessions' feeder ids has status
`stale` if its status was `active` before the tick; feeders in any other
status (`offline`, already `stale`) are left unchanged.  The original
claim (every such feeder is `stale`) fails for an `offline` feeder: see
`stale_marking_counterexample`. -/
theorem tick_stale_marking (mlat_ips : List Nat) (reg : List (Nat × ConnInfo))
    (store : Store) (rec : FeederRec) (hmem : rec ∈ store)
    (hnotlive : rec.fid ∉ reg.map (fun e => e.2.feeder_id)) :
    (rec.status = "active" →
      { rec with status := "stale" } ∈ (stats_flusher_tick [] mlat_ips reg store).store) ∧
    (rec.status ≠ "active" → rec ∈ (stats_flusher_tick [] mlat_ips reg store).store) := by
  have hok := tickLoop_nofail_ok mlat_ips reg store []
  have hfid : ∀ e ∈ reg, e.2.feeder_id ≠ rec.fid := by
    intro e he heq
    exact hnotlive (heq ▸ List.mem_map_of_mem (fun e => e.2.feeder_id) he)
  have hmem2 : rec ∈ (tickLoop [] mlat_ips reg store []).store :=
    tickLoop_store_mem mlat_ips reg store [] rec hmem hfid
  have hids : (tickLoop [] mlat_ips reg store []).reg.map (fun e => e.2.feeder_id) =
      reg.map (fun e => e.2.feeder_id) := tickLoop_reg_fids mlat_ips reg store []
  have hred : (stats_flusher_tick [] mlat_ips reg store).store =
      mark_inactive_feeders (tickLoop [] mlat_ips reg store []).store
        ((tickLoop [] mlat_ips reg store []).reg.map (fun e => e.2.feeder_id)) := by
    unfold stats_flusher_tick
    rw [if_pos hok]
  rw [hred, hids]
  have hnotin : rec.fid ∉ reg.map (fun e => e.2.feeder_id) := hnotlive
  constructor
  · intro hact
    unfold mark_inactive_feeders
    by_cases hne : reg.map (fun e => e.2.feeder_id) ≠ []
    · rw [if_pos hne]
      exact (by rw [if_pos ⟨hact, hnotin⟩] :
        (if rec.status = "active" ∧ rec.fid ∉ reg.map (fun e => e.2.feeder_id) then
          { rec with status := "stale" } else rec) = { rec with status := "stale" }) ▸
        List.mem_map_of_mem _ hmem2
    · rw [if_neg hne]
      exact (by rw [if_pos hact] :
        (if rec.status = "active" then { rec with status := "stale" } else rec) =
          { rec with status := "stale" }) ▸ List.mem_map_of_mem _ hmem2
  · intro hact
    unfold mark_inactive_feeders
    by_cases hne : reg.map (fun e => e.2.feeder_id) ≠ []
    · rw [if_pos hne]
      exact mem_map_fixed _ hmem2 (by rw [if_neg (fun h => hact h.1)])
    · rw [if_neg hne]
      exact mem_map_fixed _ hmem2 (by rw [if_neg hact])

theorem tick_stale_marking_witness :
    ({ fid := 1, status := "stale", bytes_received := 0, messages_received := 0,
       positions_received := 0, mlat_enabled := false } : FeederRec) ∈
      (stats_flusher_tick [] [] []
        [⟨1, "active", 0, 0, 0, false⟩, ⟨2, "offline", 0, 0, 0, false⟩]).store ∧
    (⟨2, "offline", 0, 0, 0, false⟩ : FeederRec) ∈
      (stats_flusher_tick [] [] []
        [⟨1, "active", 0, 0, 0, false⟩, ⟨2, "offline", 0, 0, 0, false⟩]).store :=
  ⟨(tick_stale_marking [] []
      [⟨1, "active", 0, 0, 0, false⟩, ⟨2, "offline", 0, 0, 0, false⟩]
      ⟨1, "active", 0, 0, 0, false⟩ (by decide) (by decide)).1 rfl,
   (tick_stale_marking [] []
      [⟨1, "active", 0, 0, 0, false⟩, ⟨2, "offline", 0, 0, 0, false⟩]
      ⟨2, "offline", 0, 0, 0, false⟩ (by decide) (by decide)).2 (by decide)⟩

/-- C5 (counterexample): a feeder whose durable record has status
`offline` and which is backed by no live session still has status
`offline` (not `stale`) after a tick — `mark_inactive_feeders` only
touches rows whose status is `active` (db.py lines 188-189). -/
theorem stale_marking_counterexample :
    (stats_flusher_tick [] [] [] [⟨1, "offline", 0, 0, 0, false⟩]).store =
      [⟨1, "offline", 0, 0, 0, false⟩] ∧ ("offline" : String) ≠ "stale" :=
  ⟨rfl, by decide⟩

/-- C6 (the code contradicts this claim): `stats_flusher` has no
`try/except`, so a store-write failure on the first feeder of a
two-session snapshot aborts the whole tick — the second feeder's update,
the aircraft count, the stale marking, the status line and the cache
refresh never run (empty event trace, store unchanged) and the uncaught
exception (`ok = false`) terminates the reconciler loop itself. -/
theorem tick_store_failure_aborts :
    stats_flusher_tick [1] []
        [(10, ⟨1, 11, 1001, 50, 0, 3, 0, 1, 0⟩), (20, ⟨2, 12, 1002, 70, 0, 4, 0, 2, 0⟩)]
        [⟨1, "active", 0, 0, 0, false⟩, ⟨2, "active", 0, 0, 0, false⟩] =
      ⟨false, [⟨1, "active", 0, 0, 0, false⟩, ⟨2, "active", 0, 0, 0, false⟩], [],
        [(10, ⟨1, 11, 1001, 50, 0, 3, 0, 1, 0⟩), (20, ⟨2, 12, 1002, 70, 0, 4, 0, 2, 0⟩)]⟩ :=
  rfl

theorem tickLoop_inv (mlat : List Nat) : ∀ (reg : List (Nat × ConnInfo)) (store : Store)
    (evs : List DbEvent), (∀ e ∈ reg, sessionInv e.2) →
    List.Forall₂ (fun e e' : Nat × ConnInfo =>
      sessionInv e'.2 ∧ e'.2.bytes = e.2.bytes ∧ e'.2.messages = e.2.messages ∧
      e'.2.positions = e.2.positions) reg (tickLoop [] mlat reg store evs).reg := by
  intro reg
  induction reg with
  | nil => intro store evs _; exact List.Forall₂.nil
  | cons hd rest ih =>
    intro store evs hinv
    obtain ⟨wid, ci⟩ := hd
    have hhd := hinv (wid, ci) (List.mem_cons_self _ _)
    dsimp only at hhd
    have hrest : ∀ e ∈ rest, sessionInv e.2 :=
      fun e he => hinv e (List.mem_cons_of_mem _ he)
    have hnf : ¬ ((wid, ci).2.feeder_id ∈ ([] : List Nat)) := List.not_mem_nil _
    by_cases hc : ci.bytes - ci.bytes_flushed > 0 ∨ ci.messages - ci.messages_flushed > 0
    · rw [tickLoop, if_neg hnf, if_pos hc]
      refine List.Forall₂.cons ?_ (ih _ _ hrest)
      refine ⟨?_, rfl, rfl, rfl⟩
      unfold sessionInv
      exact ⟨le_refl _, le_refl _, le_refl _⟩
    · rw [tickLoop, if_neg hnf, if_neg hc]
      exact List.Forall₂.cons ⟨hhd, rfl, rfl, rfl⟩ (ih _ _ hrest)

theorem tickLoop_flush_events (mlat : List Nat) : ∀ (reg : List (Nat × ConnInfo))
    (store : Store) (evs : List DbEvent) (fid b m p : Nat),
    DbEvent.update_feeder_stats fid b m p ∈ (tickLoop [] mlat reg store evs).events →
    DbEvent.update_feeder_stats fid b m p ∈ evs ∨
    ∃ e ∈ reg, fid = e.2.feeder_id ∧ b = e.2.bytes - e.2.bytes_flushed ∧
      m = e.2.messages - e.2.messages_flushed ∧ p = e.2.positions - e.2.positions_flushed := by
  intro reg
  induction reg with
  | nil =>
    intro store evs fid b m p hmem
    exact Or.inl hmem
  | cons hd rest ih =>
    intro store evs fid b m p hmem
    obtain ⟨wid, ci⟩ := hd
    have hnf : ¬ ((wid, ci).2.feeder_id ∈ ([] : List Nat)) := List.not_mem_nil _
    by_cases hc : ci.bytes - ci.bytes_flushed > 0 ∨ ci.messages - ci.messages_flushed > 0
    · rw [tickLoop, if_neg hnf, if_pos hc] at hmem
      rcases ih _ _ _ _ _ _ hmem with hin | ⟨e, he, hrest⟩
      · rcases List.mem_append.mp hin with hin2 | hnew
        · exact Or.inl hin2
        · rcases List.mem_cons.mp hnew with heq | hnew2
          · refine Or.inr ⟨(wid, ci), List.mem_cons_self _ _, ?_⟩
            have := DbEvent.update_feeder_stats.injEq fid b m p ci.feeder_id
              (ci.bytes - ci.bytes_flushed) (ci.messages - ci.messages_flushed)
              (ci.positions - ci.positions_flushed) ▸ heq
            rcases (by simpa using heq : fid = ci.feeder_id ∧ b = ci.bytes - ci.bytes_flushed ∧
              m = ci.messages - ci.messages_flushed ∧
              p = ci.positions - ci.positions_flushed) with ⟨h1, h2, h3, h4⟩
            exact ⟨h1, h2, h3, h4⟩
          · rcases List.mem_singleton.mp hnew2 with heq
            exact absurd heq (by simp)
      · exact Or.inr ⟨e, List.mem_cons_of_mem _ he, hrest⟩
    · rw [tickLoop, if_neg hnf, if_neg hc] at hmem
      rcases ih _ _ _ _ _ _ hmem with hin | ⟨e, he, hrest⟩
      · rcases List.mem_append.mp hin with hin2 | hnew
        · exact Or.inl hin2
        · rcases List.mem_cons.mp hnew with heq | hnew2
          · exact absurd heq (by simp)
          · rcases List.mem_singleton.mp hnew2 with heq
            exact absurd heq (by simp)
      · exact Or.inr ⟨e, List.mem_cons_of_mem _ he, hrest⟩

/-- C10: every operation touching a session's counters preserves the
invariant that each flushed watermark is at most its running total: the
inbound chunk step only increases totals and leaves watermarks unchanged;
the periodic tick leaves totals unchanged and preserves the invariant on
every registry entry; and every counter delta written to the durable
store — by the tick's flush step or by the teardown flush — equals the
exact integer difference total minus watermark and is non-negative. -/
theorem counter_invariants :
    (∀ (ci : ConnInfo) (chunk : List Nat), sessionInv ci →
      sessionInv (processChunk ci chunk) ∧
      ci.bytes ≤ (processChunk ci chunk).bytes ∧
      ci.messages ≤ (processChunk ci chunk).messages ∧
      ci.positions ≤ (processChunk ci chunk).positions ∧
      (processChunk ci chunk).bytes_flushed = ci.bytes_flushed ∧
      (processChunk ci chunk).messages_flushed = ci.messages_flushed ∧
      (processChunk ci chunk).positions_flushed = ci.positions_flushed) ∧
    (∀ (mlat_ips : List Nat) (reg : List (Nat × ConnInfo)) (store : Store),
      (∀ e ∈ reg, sessionInv e.2) →
      List.Forall₂ (fun e e' : Nat × ConnInfo =>
        sessionInv e'.2 ∧ e'.2.bytes = e.2.bytes ∧ e'.2.messages = e.2.messages ∧
        e'.2.positions = e.2.positions) reg (stats_flusher_tick [] mlat_ips reg store).reg) ∧
    (∀ (mlat_ips : List Nat) (reg : List (Nat × ConnInfo)) (store : Store) (fid b m p : Nat),
      (∀ e ∈ reg, sessionInv e.2) →
      DbEvent.update_feeder_stats fid b m p ∈
        (stats_flusher_tick [] mlat_ips reg store).events →
      ∃ e ∈ reg, fid = e.2.feeder_id ∧
        (b : Int) = (e.2.bytes : Int) - (e.2.bytes_flushed : Int) ∧
        (m : Int) = (e.2.messages : Int) - (e.2.messages_flushed : Int) ∧
        (p : Int) = (e.2.positions : Int) - (e.2.positions_flushed : Int) ∧
        0 ≤ (b : Int) ∧ 0 ≤ (m : Int) ∧ 0 ≤ (p : Int)) ∧
    (∀ ci : ConnInfo, sessionInv ci → ∀ fid b m p,
      DbEvent.update_feeder_stats fid b m p ∈ teardown ci →
      (b : Int) = (ci.bytes : Int) - (ci.bytes_flushed : Int) ∧
      (m : Int) = (ci.messages : Int) - (ci.messages_flushed : Int) ∧
      (p : Int) = (ci.positions : Int) - (ci.positions_flushed : Int) ∧
      0 ≤ (b : Int) ∧ 0 ≤ (m : Int) ∧ 0 ≤ (p : Int)) := by
  refine ⟨?_, ?_, ?_, ?_⟩
  · intro ci chunk h
    unfold sessionInv at h ⊢
    simp only [processChunk]
    refine ⟨⟨by omega, by omega, by omega⟩, by omega, by omega, by omega, trivial, trivial,
      trivial⟩
  · intro mlat_ips reg store hinv
    have hok := tickLoop_nofail_ok mlat_ips reg store []
    have h := tickLoop_inv mlat_ips reg store [] hinv
    have hred : (stats_flusher_tick [] mlat_ips reg store).reg =
        (tickLoop [] mlat_ips reg store []).reg := by
      unfold stats_flusher_tick
      rw [if_pos hok]
    rw [hred]
    exact h
  · intro mlat_ips reg store fid b m p hinv hmem
    have hok := tickLoop_nofail_ok mlat_ips reg store []
    have hred : (stats_flusher_tick [] mlat_ips reg store).events =
        (tickLoop [] mlat_ips reg store []).events ++
          [DbEvent.aircraft_count,
           DbEvent.mark_inactive_feeders
             ((tickLoop [] mlat_ips reg store []).reg.map (fun e => e.2.feeder_id)),
           DbEvent.refresh_caches] := by
      unfold stats_flusher_tick
      rw [if_pos hok]
    rw [hred] at hmem
    rcases List.mem_append.mp hmem with hin | htail
    · rcases tickLoop_flush_events mlat_ips reg store [] fid b m p hin with hnil | hex
      · exact absurd hnil (List.not_mem_nil _)
      · obtain ⟨e, he, h1, h2, h3, h4⟩ := hex
        have hs := hinv e he
        unfold sessionInv at hs
        exact ⟨e, he, h1, by omega, by omega, by omega, by omega, by omega, by omega⟩
    · simp at htail
  · intro ci hs fid b m p hmem
    unfold sessionInv at hs
    unfold teardown at hmem
    dsimp only at hmem
    by_cases hc : ci.bytes - ci.bytes_flushed > 0 ∨ ci.messages - ci.messages_flushed > 0
    · rw [if_pos hc] at hmem
      rcases List.mem_append.mp hmem with hin | hdisc
      · rcases List.mem_singleton.mp hin with heq
        rcases (by simpa using heq : fid = ci.feeder_id ∧ b = ci.bytes - ci.bytes_flushed ∧
          m = ci.messages - ci.messages_flushed ∧
          p = ci.positions - ci.positions_flushed) with ⟨h1, h2, h3, h4⟩
        refine ⟨by omega, by omega, by omega, by omega, by omega, by omega⟩
      · rcases List.mem_singleton.mp hdisc with heq
        exact absurd heq (by simp)
    · rw [if_neg hc] at hmem
      simp at hmem

theorem handle_client_teardown_witness :
    ((handle_client_session 99 1 2 3 [[0x1a, 0x32, 5, 6]] SessionEnd.eof []).1.countP
        (fun e => match e with | DbEvent.log_disconnection _ _ _ => true | _ => false) = 1) ∧
    ((handle_client_session 99 1 2 3 [[0x1a, 0x32, 5, 6]] SessionEnd.eof []).2 = []) :=
  ⟨(handle_client_teardown 99 1 2 3 [[0x1a, 0x32, 5, 6]] SessionEnd.eof []
      (fun e he => absurd he (List.not_mem_nil e))).1,
   (handle_client_teardown 99 1 2 3 [[0x1a, 0x32, 5, 6]] SessionEnd.eof []
      (fun e he => absurd he (List.not_mem_nil e))).2.2.2.2.1⟩

theorem counter_invariants_witness :
    ((6 : Nat) : Int) = ((10 : Nat) : Int) - ((4 : Nat) : Int) ∧
    ((3 : Nat) : Int) = ((5 : Nat) : Int) - ((2 : Nat) : Int) ∧
    ((2 : Nat) : Int) = ((3 : Nat) : Int) - ((1 : Nat) : Int) ∧
    0 ≤ ((6 : Nat) : Int) ∧ 0 ≤ ((3 : Nat) : Int) ∧ 0 ≤ ((2 : Nat) : Int) :=
  counter_invariants.2.2.2 ⟨1, 2, 3, 10, 4, 5, 2, 3, 1⟩ (by decide) 1 6 3 2 (by decide)

end BeastProxy
